import Mathlib

/-!
Verification development for the helio-mono event-sourced task and
attention engine.

The definitions below are a shallow embedding of the Python services:

* services/task/service.py          (TaskService)
* services/query/service.py         (QueryService.rebuild_projections)
* services/attention/service.py     (AttentionService)
* services/event_store/file_store.py (FileEventStore.stream_events)
* services/api/routes/lab.py        (run_experiment, apply_experiment)

Timestamps are modelled as rationals (hours on one global clock): ISO-8601
strings of one format compare lexicographically exactly in time order, so
order-sensitive code is unaffected by this encoding.  Identifiers (UUIDs)
are modelled as strings.  SQLite tables are modelled as lists of rows in
insertion order; INSERT OR REPLACE on the primary key replaces in place
when the key exists and appends otherwise, which matches rowid behaviour
for the access patterns the services use (lookups by key, full scans).
The SHA-1 based 16-hex dedup hash is a parameter (hash : String -> String)
of the definitions that use it; nothing is assumed about it.
-/

namespace Helio

/-- Task lifecycle states, from shared/contracts/tasks.py TaskStatus. -/
inductive TaskStatus where
  | open_
  | blocked
  | inProgress
  | done
  | cancelled
  | snoozed
deriving DecidableEq, Repr

/-- String value of a status, as stored in SQLite (enum .value). -/
def TaskStatus.value : TaskStatus → String
  | .open_ => "open"
  | .blocked => "blocked"
  | .inProgress => "in_progress"
  | .done => "done"
  | .cancelled => "cancelled"
  | .snoozed => "snoozed"

/-- Task priorities, from shared/contracts/tasks.py TaskPriority. -/
inductive TaskPriority where
  | p0
  | p1
  | p2
  | p3
deriving DecidableEq, Repr

def TaskPriority.value : TaskPriority → String
  | .p0 => "p0"
  | .p1 => "p1"
  | .p2 => "p2"
  | .p3 => "p3"

/-- The reserved review label (TASK_LABEL_NEEDS_REVIEW). -/
def TASK_LABEL_NEEDS_REVIEW : String := "needs_review"

/-- One append-only explanation entry on a task
(shared/contracts/tasks.py TaskExplanation). -/
structure TaskExplanation where
  ts : ℚ
  actor : String
  action : String
  rationale : String
deriving DecidableEq, Repr

/-- The canonical Task row, mirroring the columns of the tasks table and
the pydantic Task model field for field. -/
structure TaskRow where
  taskId : String
  title : String
  body : Option String
  status : TaskStatus
  priority : TaskPriority
  dueAt : Option ℚ
  doNotStartBefore : Option ℚ
  createdAt : ℚ
  updatedAt : ℚ
  completedAt : Option ℚ
  source : String
  sourceRef : String
  dedupGroupId : Option String
  labels : List String
  project : Option String
  blockedBy : List String
  agentNotes : Option String
  explanations : List TaskExplanation
deriving DecidableEq, Repr

/-- INSERT OR REPLACE into a list of rows keyed by a primary key:
replace the (unique) row carrying the key in place, append otherwise. -/
def upsertBy {α : Type} (key : α → String) (row : α) : List α → List α
  | [] => [row]
  | r :: rs => if key r = key row then row :: rs else r :: upsertBy key row rs

/-- SELECT task_id FROM tasks WHERE source = ? AND source_ref = ? (first hit). -/
def findBySourceRef (tasks : List TaskRow) (source sourceRef : String) :
    Option TaskRow :=
  tasks.find? (fun r => r.source = source && r.sourceRef = sourceRef)

/-- SELECT * FROM tasks WHERE task_id = ? (first hit). -/
def findById (tasks : List TaskRow) (taskId : String) : Option TaskRow :=
  tasks.find? (fun r => r.taskId = taskId)

/-- Split a character list at every separator character, keeping the
(possibly empty) segments between separators, as str.split does before
empty segments are dropped. -/
def charSplit (p : Char → Bool) : List Char → List (List Char)
  | [] => [[]]
  | c :: cs =>
      if p c then [] :: charSplit p cs
      else match charSplit p cs with
        | [] => [[c]]
        | w :: ws => (c :: w) :: ws

/-- Python str.lower().split() joined by one space: lowercase and collapse
all whitespace runs.  Mirrors the normalisation in _compute_dedup_group_id. -/
def normalizeWs (s : String) : String :=
  " ".intercalate
    (((charSplit Char.isWhitespace (s.data.map Char.toLower)).map
      (fun w => String.mk w)).filter (· ≠ ""))

/-- TaskService._compute_dedup_group_id: the SHA-1 16-hex digest of the
normalised title, body and project joined by pipes.  The digest function
itself is the parameter hash. -/
def computeDedupGroupId (hash : String → String)
    (title : String) (body project : Option String) : String :=
  hash (normalizeWs title ++ "|" ++ normalizeWs (body.getD "") ++ "|" ++
    normalizeWs (project.getD ""))

/-- list(dict.fromkeys(xs)), also the key set of a dict built by
insertion: order-preserving de-duplication keeping first occurrences. -/
def dedupKeepOrder {α : Type} [DecidableEq α] : List α → List α
  | [] => []
  | x :: xs => x :: (dedupKeepOrder xs).filter (· ≠ x)

/-- The decision_data payload of a DecisionRecordedEvent as TaskService
emits it (services/task/service.py _record_decision). -/
structure DecisionEvent where
  domain : String
  action : String
  source : String
  sourceRef : String
  taskSnapshot : Option TaskRow
  rationale : String
deriving DecidableEq, Repr

/-- One observable effect of a TaskService operation, in program order:
a projection-store task upsert, a SQLite commit, or an event-store append
of a decision event. -/
inductive Action where
  | upsertTask (row : TaskRow)
  | commit
  | appendEvent (ev : DecisionEvent)
deriving DecidableEq, Repr

/-- The shared state a TaskService operation acts on: the tasks projection
table plus the append-only event log. -/
structure SysState where
  tasks : List TaskRow
  log : List DecisionEvent
deriving DecidableEq, Repr

def applyAction (st : SysState) : Action → SysState
  | .upsertTask row => { st with tasks := upsertBy TaskRow.taskId row st.tasks }
  | .commit => st
  | .appendEvent ev => { st with log := st.log ++ [ev] }

def applyActions (st : SysState) (acts : List Action) : SysState :=
  acts.foldl applyAction st

/-- shared/contracts/tasks.py TaskIngestRequest. -/
structure TaskIngestRequest where
  title : String
  body : Option String
  source : String
  sourceRef : String
  priority : Option TaskPriority
  dueAt : Option ℚ
  doNotStartBefore : Option ℚ
  labels : List String
  project : Option String
deriving DecidableEq, Repr

/-- shared/contracts/tasks.py TaskIngestResult. -/
structure TaskIngestResult where
  taskId : String
  created : Bool
  decisionRationale : Option String
deriving DecidableEq, Repr

/-- The duplicate count of TaskService.ingest_task: rows sharing the
dedup group whose status is neither done nor cancelled. -/
def dedupDuplicateCount (tasks : List TaskRow) (dedupGroupId : String) : Nat :=
  (tasks.filter (fun r =>
    r.dedupGroupId = some dedupGroupId &&
    r.status.value ≠ "done" && r.status.value ≠ "cancelled")).length

/-- The label list and decision rationale ingest_task computes for a new
task: append needs_review and switch to the duplicate rationale exactly
when a live duplicate exists and the label is not already present. -/
def ingestLabelsRationale (hash : String → String) (tasks : List TaskRow)
    (req : TaskIngestRequest) : List String × String :=
  let dedupGroupId := computeDedupGroupId hash req.title req.body req.project
  let labels0 := dedupKeepOrder req.labels
  if dedupDuplicateCount tasks dedupGroupId > 0 &&
      ¬ labels0.contains TASK_LABEL_NEEDS_REVIEW then
    (labels0 ++ [TASK_LABEL_NEEDS_REVIEW],
      "Potential duplicate detected (dedup group " ++ dedupGroupId ++
        "); created and flagged for review")
  else (labels0, "New task created")

/-- The Task record ingest_task constructs for a previously unseen
(source, source_ref) pair. -/
def ingestNewRow (hash : String → String) (tasks : List TaskRow)
    (req : TaskIngestRequest) (now : ℚ) (freshId : String) : TaskRow :=
  let lr := ingestLabelsRationale hash tasks req
  { taskId := freshId, title := req.title, body := req.body
    status := .open_, priority := req.priority.getD .p2
    dueAt := req.dueAt, doNotStartBefore := req.doNotStartBefore
    createdAt := now, updatedAt := now, completedAt := none
    source := req.source, sourceRef := req.sourceRef
    dedupGroupId := some (computeDedupGroupId hash req.title req.body req.project)
    labels := lr.1, project := req.project, blockedBy := [], agentNotes := none
    explanations := [⟨now, "task_service", "ingest", lr.2⟩] }

/-- TaskService.ingest_task.  The wall clock (datetime.utcnow) is the
parameter now and the uuid4 value for a newly created task is the
parameter freshId; both are chosen by the environment, not the code.
Returns the result together with the ordered list of effects. -/
def ingestTask (hash : String → String) (tasks : List TaskRow)
    (req : TaskIngestRequest) (now : ℚ) (freshId : String) :
    TaskIngestResult × List Action :=
  match findBySourceRef tasks req.source req.sourceRef with
  | some existing =>
      let rationale := "Idempotent ingest hit existing task for source/source_ref"
      let ev : DecisionEvent :=
        { domain := "task", action := "ingest_existing", source := req.source
          sourceRef := req.sourceRef
          taskSnapshot := findById tasks existing.taskId, rationale := rationale }
      (⟨existing.taskId, false, some rationale⟩, [.appendEvent ev])
  | none =>
      let task := ingestNewRow hash tasks req now freshId
      let rationale := (ingestLabelsRationale hash tasks req).2
      let ev : DecisionEvent :=
        { domain := "task", action := "ingest_created", source := req.source
          sourceRef := req.sourceRef, taskSnapshot := some task
          rationale := rationale }
      (⟨freshId, true, some rationale⟩,
        [.upsertTask task, .commit, .appendEvent ev])

/-- shared/contracts/tasks.py TaskPatchRequest: all fields optional,
pydantic model_dump(exclude_none=True) keeps only the provided ones. -/
structure TaskPatchRequest where
  title : Option String
  body : Option String
  status : Option TaskStatus
  priority : Option TaskPriority
  dueAt : Option ℚ
  doNotStartBefore : Option ℚ
  labels : Option (List String)
  project : Option String
deriving DecidableEq, Repr

/-- The setattr loop of TaskService.patch_task over the provided fields. -/
def applyPatch (task : TaskRow) (p : TaskPatchRequest) : TaskRow :=
  { task with
    title := p.title.getD task.title
    body := p.body.orElse (fun _ => task.body)
    status := p.status.getD task.status
    priority := p.priority.getD task.priority
    dueAt := p.dueAt.orElse (fun _ => task.dueAt)
    doNotStartBefore := p.doNotStartBefore.orElse (fun _ => task.doNotStartBefore)
    labels := p.labels.getD task.labels
    project := p.project.orElse (fun _ => task.project) }

/-- TaskService.patch_task.  none models the not-found early return. -/
def patchTask (tasks : List TaskRow) (taskId : String)
    (p : TaskPatchRequest) (now : ℚ) : Option TaskRow × List Action :=
  match findById tasks taskId with
  | none => (none, [])
  | some existing =>
      let rationale := "Task updated via PATCH"
      let task :=
        let t := applyPatch existing p
        { t with updatedAt := now
                 explanations := t.explanations ++
                   [⟨now, "task_service", "patch", rationale⟩] }
      let ev : DecisionEvent :=
        { domain := "task", action := "patch", source := "api"
          sourceRef := "task:" ++ taskId ++ ":patch:" ++ toString now
          taskSnapshot := some task, rationale := rationale }
      (some task, [.upsertTask task, .commit, .appendEvent ev])

/-- TaskService.complete_task. -/
def completeTask (tasks : List TaskRow) (taskId : String)
    (rationale : Option String) (now : ℚ) : Option TaskRow × List Action :=
  match findById tasks taskId with
  | none => (none, [])
  | some existing =>
      let r := rationale.getD "Task marked done"
      let task :=
        { existing with status := .done, completedAt := some now
                        updatedAt := now
                        explanations := existing.explanations ++
                          [⟨now, "task_service", "complete", r⟩] }
      let ev : DecisionEvent :=
        { domain := "task", action := "complete", source := "api"
          sourceRef := "task:" ++ taskId ++ ":complete:" ++ toString now
          taskSnapshot := some task, rationale := r }
      (some task, [.upsertTask task, .commit, .appendEvent ev])

/-- TaskService.snooze_task. -/
def snoozeTask (tasks : List TaskRow) (taskId : String)
    (untilTs : ℚ) (rationale : Option String) (now : ℚ) :
    Option TaskRow × List Action :=
  match findById tasks taskId with
  | none => (none, [])
  | some existing =>
      let r := rationale.getD "Task snoozed"
      let task :=
        { existing with status := .snoozed, doNotStartBefore := some untilTs
                        updatedAt := now
                        explanations := existing.explanations ++
                          [⟨now, "task_service", "snooze", r⟩] }
      let ev : DecisionEvent :=
        { domain := "task", action := "snooze", source := "api"
          sourceRef := "task:" ++ taskId ++ ":snooze:" ++ toString now
          taskSnapshot := some task, rationale := r }
      (some task, [.upsertTask task, .commit, .appendEvent ev])

/-- TaskService.link_task: union the proposed dependencies into blocked_by,
sort the id strings, set status blocked when any dependency is present,
upsert, commit, then record the decision event.  No cycle check occurs. -/
def linkTask (tasks : List TaskRow) (taskId : String)
    (blockedBy : List String) (rationale : Option String) (now : ℚ) :
    Option TaskRow × List Action :=
  match findById tasks taskId with
  | none => (none, [])
  | some existing =>
      let r := rationale.getD "Task dependencies updated"
      let links := (dedupKeepOrder (existing.blockedBy ++ blockedBy)).insertionSort (· ≤ ·)
      let task :=
        { existing with blockedBy := links
                        status := if links ≠ [] then .blocked else existing.status
                        updatedAt := now
                        explanations := existing.explanations ++
                          [⟨now, "task_service", "link", r⟩] }
      let ev : DecisionEvent :=
        { domain := "task", action := "link", source := "api"
          sourceRef := "task:" ++ taskId ++ ":link:" ++ toString now
          taskSnapshot := some task, rationale := r }
      (some task, [.upsertTask task, .commit, .appendEvent ev])

/-- The DFS visit of TaskService._would_create_cycle: returns whether a
node on the current recursion stack is reached again, threading the
visited set.  fuel bounds the recursion depth; the caller passes one more
than the number of nodes, which the Python recursion never exceeds
because every recursive call first inserts an unvisited node. -/
def cycleVisit (graph : List (String × List String)) :
    Nat → List String → List String → String → Bool × List String
  | 0, visited, _, _ => (false, visited)
  | fuel + 1, visited, stack, node =>
      if stack.contains node then (true, visited)
      else if visited.contains node then (false, visited)
      else
        let visited := node :: visited
        let stack := node :: stack
        let neighbors := ((graph.find? (fun p => p.1 = node)).map Prod.snd).getD []
        neighbors.foldl
          (fun acc n => if acc.1 then acc else cycleVisit graph fuel acc.2 stack n)
          (false, visited)

/-- TaskService._would_create_cycle: build the full adjacency snapshot
from every blocked_by column, add the proposed edge, and run the DFS. -/
def wouldCreateCycle (tasks : List TaskRow) (taskId depId : String) : Bool :=
  let graph0 := tasks.map (fun r => (r.taskId, r.blockedBy))
  let graph :=
    match graph0.find? (fun p => p.1 = taskId) with
    | some _ => graph0.map (fun p => if p.1 = taskId then (p.1, p.2 ++ [depId]) else p)
    | none => graph0 ++ [(taskId, [depId])]
  (cycleVisit graph (graph.length + 1) [] [] taskId).1

/-- The kind of an effect, used to state ordering properties of traces. -/
inductive ActionKind where
  | upsert
  | commit
  | append
deriving DecidableEq, BEq, Repr

def Action.kind : Action → ActionKind
  | .upsertTask _ => .upsert
  | .commit => .commit
  | .appendEvent _ => .append

/-- An open task a with no dependencies, used to exercise link_task. -/
def c1RowA : TaskRow :=
  { taskId := "a", title := "A", body := none, status := .open_, priority := .p2
    dueAt := none, doNotStartBefore := none, createdAt := 0, updatedAt := 0
    completedAt := none, source := "api", sourceRef := "ra", dedupGroupId := none
    labels := [], project := none, blockedBy := [], agentNotes := none
    explanations := [] }

/-- A task b already blocked by a, so that linking a to b closes a cycle. -/
def c1RowB : TaskRow :=
  { c1RowA with taskId := "b", title := "B", sourceRef := "rb", blockedBy := ["a"] }

-- ===================================================================
-- Attention service (services/attention/service.py)
-- ===================================================================

/-- The deterministic buckets, in their fixed priority order. -/
inductive AttentionBucket where
  | urgentDueSoon
  | readyHighPriority
  | readyNormal
  | blocked
  | deferredOrGated
  | completedOrCancelled
deriving DecidableEq, Repr

/-- The bucket_rank table of AttentionService (listed order, lower wins). -/
def bucketRankOf : AttentionBucket → Nat
  | .urgentDueSoon => 0
  | .readyHighPriority => 1
  | .readyNormal => 2
  | .blocked => 3
  | .deferredOrGated => 4
  | .completedOrCancelled => 5

/-- The AttentionService constructor flags and threshold. -/
structure AttentionConfig where
  enableShadowRanker : Bool
  shadowConfidenceThreshold : ℚ
  enableBoundedPersonalization : Bool
deriving DecidableEq, Repr

/-- The value ShadowRanker.score returns for one feature vector.  The
ranker is an external pure collaborator here; a raised exception in the
try block of _score_task is modelled by passing none instead of a
result. -/
structure RankResult where
  score : ℚ
  confidence : ℚ
  explanation : String
deriving DecidableEq, Repr

/-- The per-task candidate dict _score_task builds and the queue
pipeline reorders. -/
structure Cand where
  taskId : String
  title : Option String
  status : String
  priority : String
  dueAt : Option ℚ
  updatedAt : Option ℚ
  isStale : Bool
  isActionable : Bool
  urgency : ℚ
  urgencyExplanation : String
  bucketId : AttentionBucket
  bucketRank : Nat
  deterministicExplanation : String
  modelScore : Option ℚ
  modelConfidence : Option ℚ
  learnedExplanation : Option String
  personalizationApplied : Bool
  personalizationPolicy : String
  shadowScore : Option ℚ
  shadowConfidence : Option ℚ
  shadowExplanation : Option String
deriving DecidableEq, Repr

/-- QueryService._is_task_stale: terminal rows are never stale; a past
due date or seven days (168 hours) without an update makes a row stale. -/
def isTaskStale (task : TaskRow) (now : ℚ) : Bool :=
  if task.status = .done || task.status = .cancelled then false
  else if task.dueAt.any (fun d => decide (d < now)) then true
  else decide (task.updatedAt < now - 168)

/-- AttentionService._determine_bucket, first match wins. -/
def determineBucket (status : TaskStatus) (priority : TaskPriority)
    (dueAt doNotStartBefore : Option ℚ) (now : ℚ) : AttentionBucket :=
  if status = .done || status = .cancelled then .completedOrCancelled
  else if status = .blocked then .blocked
  else if status = .snoozed ||
      doNotStartBefore.any (fun d => decide (d > now)) then .deferredOrGated
  else if dueAt.any (fun d => decide (d - now ≤ 72)) then .urgentDueSoon
  else if priority = .p0 || priority = .p1 then .readyHighPriority
  else .readyNormal

/-- AttentionService._score_task: additive urgency score with recorded
components, deterministic bucket, actionability, and the shadow-ranker
fields.  now is the single utcnow the queue methods take; rankerResult
is the outcome of ShadowRanker.score for this task, none when the call
raised.  Scores stay integral, so the round(score, 2) of the source is
the identity and is not re-modelled. -/
def scoreTask (cfg : AttentionConfig) (task : TaskRow) (now : ℚ)
    (rankerResult : Option RankResult) : Cand :=
  let due : ℚ × List String :=
    match task.dueAt with
    | none => (0, [])
    | some d =>
        let h := d - now
        if h < 0 then (60, ["overdue +60"])
        else if h ≤ 24 then (45, ["due<24h +45"])
        else if h ≤ 72 then (35, ["due<72h +35"])
        else if h ≤ 168 then (20, ["due<7d +20"])
        else (5, ["due>7d +5"])
  let priorityDelta : ℚ :=
    match task.priority with
    | .p0 => 30 | .p1 => 20 | .p2 => 10 | .p3 => 0
  let ageDays : ℚ := max 0 ((now - task.updatedAt) / 24)
  let age : ℚ × List String :=
    if ageDays ≥ 14 then (18, ["age>=14d +18"])
    else if ageDays ≥ 7 then (12, ["age>=7d +12"])
    else if ageDays ≥ 3 then (6, ["age>=3d +6"])
    else (0, [])
  let blockedDelta : ℚ × List String :=
    if task.status = .blocked then (-15, ["blocked -15"]) else (0, [])
  let snoozedDelta : ℚ × List String :=
    if task.status = .snoozed then (-25, ["snoozed -25"]) else (0, [])
  let gateDelta : ℚ × List String :=
    if task.doNotStartBefore.any (fun d => decide (d > now)) then
      (-30, ["start-gated -30"])
    else (0, [])
  let score := due.1 + priorityDelta + age.1 + blockedDelta.1 +
    snoozedDelta.1 + gateDelta.1
  let components := due.2 ++
    ["priority " ++ task.priority.value ++ " +" ++ toString priorityDelta] ++
    age.2 ++ blockedDelta.2 ++ snoozedDelta.2 ++ gateDelta.2
  let explanation :=
    if components = [] then "baseline" else "; ".intercalate components
  let bucket := determineBucket task.status task.priority task.dueAt
    task.doNotStartBefore now
  let base : Cand :=
    { taskId := task.taskId, title := some task.title
      status := task.status.value, priority := task.priority.value
      dueAt := task.dueAt, updatedAt := some task.updatedAt
      isStale := isTaskStale task now
      isActionable := (task.status = .open_ || task.status = .inProgress) &&
        ¬ task.doNotStartBefore.any (fun d => decide (d > now))
      urgency := score, urgencyExplanation := explanation
      bucketId := bucket, bucketRank := bucketRankOf bucket
      deterministicExplanation := explanation
      modelScore := none, modelConfidence := none, learnedExplanation := none
      personalizationApplied := false
      personalizationPolicy := "deterministic_only"
      shadowScore := none, shadowConfidence := none, shadowExplanation := none }
  if cfg.enableShadowRanker then
    match rankerResult with
    | some r =>
        { base with
          shadowScore := some r.score, shadowConfidence := some r.confidence
          shadowExplanation := some r.explanation
          modelScore := some r.score, modelConfidence := some r.confidence
          learnedExplanation := some r.explanation }
    | none =>
        { base with
          shadowScore := none, shadowConfidence := none
          shadowExplanation :=
            some "shadow model unavailable; deterministic fallback active"
          modelScore := none, modelConfidence := none
          learnedExplanation :=
            some "shadow model unavailable; deterministic fallback active" }
  else base

/-- Comparison of the updated_at sort-key component: the source compares
the raw ISO strings with the empty string substituted for a missing
value, and the empty string precedes every ISO string. -/
def optTimeLE : Option ℚ → Option ℚ → Bool
  | none, _ => true
  | some _, none => false
  | some a, some b => a ≤ b

/-- Lexicographic tuple comparison, one component at a time, as Python
compares sort-key tuples: strict comparison on the current component
decides unless the components are equal, in which case the remaining
components decide. -/
def lexB {α κ : Type} [LinearOrder κ] (f : α → κ) (tail : α → α → Bool)
    (a b : α) : Bool :=
  if f a ≠ f b then decide (f a < f b) else tail a b

/-- The deterministic sort key of the queue: the tuple (bucket rank,
negated urgency, updated_at with empty fallback), compared as Python
compares key tuples. -/
def detLEb : Cand → Cand → Bool :=
  lexB (fun c => c.bucketRank)
    (lexB (fun c => -c.urgency) (fun a b => optTimeLE a.updatedAt b.updatedAt))

def detLE (a b : Cand) : Prop := detLEb a b = true

instance : DecidableRel detLE := fun a b =>
  inferInstanceAs (Decidable (detLEb a b = true))

/-- The _reorder_bucket_with_model key: the tuple (negated model score
with 0 for missing, negated urgency, updated_at with empty fallback). -/
def modLEb : Cand → Cand → Bool :=
  lexB (fun c => -(c.modelScore.getD 0))
    (lexB (fun c => -c.urgency) (fun a b => optTimeLE a.updatedAt b.updatedAt))

def modLE (a b : Cand) : Prop := modLEb a b = true

instance : DecidableRel modLE := fun a b =>
  inferInstanceAs (Decidable (modLEb a b = true))

/-- Eligibility for bounded reordering: a model score is present and the
model confidence (0 when missing) reaches the threshold. -/
def isEligibleB (threshold : ℚ) (c : Cand) : Bool :=
  c.modelScore.isSome && decide (threshold ≤ c.modelConfidence.getD 0)

/-- chosen["personalization_applied"] = True on a spliced candidate. -/
def setApplied (c : Cand) : Cand := { c with personalizationApplied := true }

/-- The splice loop of _reorder_bucket_with_model: walk the bucket in
order; at a position whose task id belongs to the eligible set, emit the
next re-sorted eligible candidate flagged as personalised; elsewhere
keep the item.  The empty-queue fallback models the next() call on an
exhausted iterator, which cannot occur while task ids are distinct. -/
def spliceEligible (eligIds : List String) :
    List Cand → List Cand → List Cand
  | _, [] => []
  | queue, item :: rest =>
      if eligIds.contains item.taskId then
        match queue with
        | chosen :: queue2 =>
            setApplied chosen :: spliceEligible eligIds queue2 rest
        | [] => item :: spliceEligible eligIds [] rest
      else item :: spliceEligible eligIds queue rest

/-- AttentionService._reorder_bucket_with_model.  The insertion sort is
extensionally the stable sort the source uses. -/
def reorderBucketWithModel (threshold : ℚ) (bucketItems : List Cand) :
    List Cand :=
  let eligible := bucketItems.filter (isEligibleB threshold)
  if eligible.length < 2 then bucketItems
  else
    let orderedEligible := eligible.insertionSort modLE
    if eligible.map Cand.taskId = orderedEligible.map Cand.taskId then
      bucketItems
    else
      spliceEligible (eligible.map Cand.taskId) orderedEligible bucketItems

/-- The flag-resetting pass of _sort_with_optional_personalization: every
candidate first records no personalisation and the policy implied by the
service-wide toggle. -/
def setPolicy (bounded : Bool) (c : Cand) : Cand :=
  { c with personalizationApplied := false
           personalizationPolicy :=
             if bounded then "bounded_in_bucket" else "deterministic_only" }

/-- The deterministic ordering the pipeline starts from: the stable sort
by the deterministic key, with flags and policy stamped. -/
def deterministicOrder (bounded : Bool) (items : List Cand) : List Cand :=
  (items.insertionSort detLE).map (setPolicy bounded)

/-- AttentionService._sort_with_optional_personalization: deterministic
sort, then, only under bounded personalisation, per-bucket reordering of
the groups taken in ascending bucket rank. -/
def sortWithOptionalPersonalization (cfg : AttentionConfig)
    (items : List Cand) : List Cand :=
  let det := deterministicOrder cfg.enableBoundedPersonalization items
  if ¬ cfg.enableBoundedPersonalization then det
  else
    let ranks := (dedupKeepOrder (det.map Cand.bucketRank)).insertionSort (· ≤ ·)
    (ranks.map (fun r =>
      reorderBucketWithModel cfg.shadowConfidenceThreshold
        (det.filter (fun c => c.bucketRank = r)))).flatten

/-- A ready-bucket candidate with an eligible model score of 1. -/
def c5A : Cand :=
  { taskId := "x1", title := some "X1", status := "open", priority := "p2"
    dueAt := none, updatedAt := some 0, isStale := false, isActionable := true
    urgency := 10, urgencyExplanation := "priority p2 +10"
    bucketId := .readyNormal, bucketRank := 2
    deterministicExplanation := "priority p2 +10"
    modelScore := some 1, modelConfidence := some (mkRat 9 10)
    learnedExplanation := none, personalizationApplied := false
    personalizationPolicy := "deterministic_only"
    shadowScore := some 1, shadowConfidence := some (mkRat 9 10)
    shadowExplanation := none }

/-- A same-bucket candidate with no model score (ineligible). -/
def c5B : Cand :=
  { c5A with taskId := "x2", title := some "X2"
             modelScore := none, modelConfidence := none
             shadowScore := none, shadowConfidence := none }

/-- A same-bucket candidate with the higher eligible model score of 2. -/
def c5C : Cand :=
  { c5A with taskId := "x3", title := some "X3"
             modelScore := some 2, modelConfidence := some (mkRat 9 10)
             shadowScore := some 2, shadowConfidence := some (mkRat 9 10) }

-- ===================================================================
-- Projection rebuild (services/query/service.py)
-- ===================================================================

/-- The validated shape of a todo object_data payload (Todo contract);
pydantic parsing has already succeeded, per the tagged-union modelling
of the extracted objects. -/
structure TodoData where
  objectId : String
  title : String
  description : Option String
  status : String
  priority : String
  dueDate : Option ℚ
  createdAt : ℚ
  completedAt : Option ℚ
  tags : List String
  sourceEventId : String
deriving DecidableEq, Repr

/-- A todos table row: the todo columns plus the last_updated_at column
stamped with the wall clock of the upsert. -/
structure TodoRow where
  todo : TodoData
  lastUpdatedAt : ℚ
deriving DecidableEq, Repr

/-- The validated shape of a note object_data payload. -/
structure NoteData where
  objectId : String
  title : String
  content : String
  createdAt : ℚ
  tags : List String
  sourceEventId : String
deriving DecidableEq, Repr

structure NoteRow where
  note : NoteData
  lastUpdatedAt : ℚ
deriving DecidableEq, Repr

/-- The validated shape of a track object_data payload. -/
structure TrackData where
  objectId : String
  title : String
  description : Option String
  status : String
  createdAt : ℚ
  lastUpdated : Option ℚ
  tags : List String
  sourceEventId : String
  checkInFrequency : Option String
deriving DecidableEq, Repr

structure TrackRow where
  track : TrackData
  projectionUpdatedAt : ℚ
deriving DecidableEq, Repr

/-- An extracted object, tagged by the object_type the handler switches
on. -/
inductive ExtractedObject where
  | todo (d : TodoData)
  | note (d : NoteData)
  | track (d : TrackData)
deriving DecidableEq, Repr

/-- The two event families rebuild_projections asks the store to stream
(OBJECT_EXTRACTED and DECISION_RECORDED), as they sit in the log: the
stream filter restricts to exactly these types, and a stored decision
line carries its decision_data domain and optional task_snapshot. -/
inductive PEvent where
  | objectExtracted (sourceEventId : String) (obj : ExtractedObject)
  | decisionRecorded (domain : String) (taskSnapshot : Option TaskRow)
deriving DecidableEq, Repr

/-- The events that survive the isinstance dispatch of the rebuild
loop: FileEventStore._deserialize_event maps only message_ingested,
artifact_recorded and object_extracted to their typed classes and falls
back to a plain BaseEvent for everything else, so a streamed
decision_recorded event is a plain BaseEvent that matches neither
isinstance branch. -/
def isExtractionEvent : PEvent → Bool
  | .objectExtracted _ _ => true
  | .decisionRecorded _ _ => false

/-- The derived tables the rebuild truncates and refills. -/
structure ProjState where
  todos : List TodoRow
  notes : List NoteRow
  tracks : List TrackRow
  tasks : List TaskRow
deriving DecidableEq, Repr

/-- QueryService._canonicalize_todo_to_task: skip on a falsy title or an
existing (api, synthetic source_ref) task, otherwise insert a fresh Task
carrying the run wall clock and a freshly generated uuid4 id.  Returns
the new state and whether a task was inserted (a fresh id consumed). -/
def canonicalizeTodoToTask (st : ProjState) (d : TodoData)
    (sourceEventId : String) (ordinal : Nat) (now : ℚ) (freshId : String) :
    ProjState × Bool :=
  if d.title = "" then (st, false)
  else
    let sourceRef := "message_event:" ++ sourceEventId ++ ":todo:" ++
      toString ordinal
    if (findBySourceRef st.tasks "api" sourceRef).isSome then (st, false)
    else
      let task : TaskRow :=
        { taskId := freshId, title := d.title, body := d.description
          status := .open_, priority := .p2, dueAt := d.dueDate
          doNotStartBefore := none, createdAt := now, updatedAt := now
          completedAt := none, source := "api", sourceRef := sourceRef
          dedupGroupId := none, labels := [TASK_LABEL_NEEDS_REVIEW]
          project := none, blockedBy := [], agentNotes := none
          explanations := [] }
      ({ st with tasks := upsertBy TaskRow.taskId task st.tasks }, true)

/-- One step of the rebuild loop: the projection state, the
todo_ordinals dict (an association list keyed by source event id) and
the count of fresh uuid4 ids consumed so far.  now is the wall clock of
the rebuild run; freshIds enumerates the uuid4 values in generation
order.  A decision_recorded event leaves the state unchanged: the store
deserializes it to a plain BaseEvent (the typed map of
_deserialize_event has no entry for decision_recorded), so the
isinstance(DecisionRecordedEvent) branch of rebuild_projections never
fires and _apply_decision_event is unreachable from a rebuild. -/
def applyPEvent (now : ℚ) (freshIds : Nat → String) :
    ProjState × List (String × Nat) × Nat → PEvent →
      ProjState × List (String × Nat) × Nat
  | (st, ordinals, k), .objectExtracted sid obj =>
      match obj with
      | .todo d =>
          let st1 := { st with
            todos := upsertBy (fun r => r.todo.objectId) ⟨d, now⟩ st.todos }
          let o := ((ordinals.find? (fun p => p.1 = sid)).map Prod.snd).getD 0
          let ordinals1 := upsertBy Prod.fst (sid, o + 1) ordinals
          let res := canonicalizeTodoToTask st1 d sid o now (freshIds k)
          (res.1, ordinals1, if res.2 then k + 1 else k)
      | .note d =>
          ({ st with
            notes := upsertBy (fun r => r.note.objectId) ⟨d, now⟩ st.notes },
           ordinals, k)
      | .track d =>
          ({ st with
            tracks := upsertBy (fun r => r.track.objectId) ⟨d, now⟩
              st.tracks },
           ordinals, k)
  | (st, ordinals, k), .decisionRecorded _ _ => (st, ordinals, k)

/-- QueryService.rebuild_projections: truncate every derived table, then
replay the streamed events in order.  The projection_metadata rows only
record audit timestamps and are not part of the derived Task and object
rows the claim speaks about. -/
def rebuildProjections (events : List PEvent) (now : ℚ)
    (freshIds : Nat → String) : ProjState :=
  (events.foldl (applyPEvent now freshIds) (⟨[], [], [], []⟩, [], 0)).1

/-- Zero out the run-dependent values of every derived row: the wall
clock columns of the object rows, and the fresh task_id and the
created_at and updated_at stamps of task rows. -/
def eraseTaskStamp (r : TaskRow) : TaskRow :=
  { r with taskId := "", createdAt := 0, updatedAt := 0 }

def eraseRunStamps (st : ProjState) : ProjState :=
  { todos := st.todos.map (fun r => { r with lastUpdatedAt := 0 })
    notes := st.notes.map (fun r => { r with lastUpdatedAt := 0 })
    tracks := st.tracks.map (fun r => { r with projectionUpdatedAt := 0 })
    tasks := st.tasks.map eraseTaskStamp }

/-- The simulation relation between the task rows of two rebuild runs:
every surviving task row is canonicalized from an extracted todo, so the
rows agree after erasing the run stamps and carry the j-th fresh id of
their own run, for the same j below the current fresh counter k. -/
def TaskRowRel (f₁ f₂ : Nat → String) (k : Nat)
    (r₁ r₂ : TaskRow) : Prop :=
  eraseTaskStamp r₁ = eraseTaskStamp r₂ ∧
  ∃ j, j < k ∧ r₁.taskId = f₁ j ∧ r₂.taskId = f₂ j

/-- The simulation relation between the whole loop states of two
rebuild runs over the same log: object rows agree up to the clock
column, task rows are related pointwise, and the ordinal dict and fresh
counter coincide. -/
def RebuildRel (f₁ f₂ : Nat → String)
    (p₁ p₂ : ProjState × List (String × Nat) × Nat) : Prop :=
  List.Forall₂ (fun r₁ r₂ : TodoRow => r₁.todo = r₂.todo)
    p₁.1.todos p₂.1.todos ∧
  List.Forall₂ (fun r₁ r₂ : NoteRow => r₁.note = r₂.note)
    p₁.1.notes p₂.1.notes ∧
  List.Forall₂ (fun r₁ r₂ : TrackRow => r₁.track = r₂.track)
    p₁.1.tracks p₂.1.tracks ∧
  List.Forall₂ (TaskRowRel f₁ f₂ p₁.2.2) p₁.1.tasks p₂.1.tasks ∧
  p₁.2.1 = p₂.2.1 ∧ p₁.2.2 = p₂.2.2

-- ===================================================================
-- Lab control plane (services/api/routes/lab.py)
-- ===================================================================

/-- Lab personalization modes (shared/contracts/lab.py). -/
inductive LabMode where
  | deterministic
  | shadow
  | bounded
deriving DecidableEq, Repr

def LabMode.value : LabMode → String
  | .deterministic => "deterministic"
  | .shadow => "shadow"
  | .bounded => "bounded"

/-- A mode plus threshold payload as the lab routes exchange it. -/
structure LabConfigPayload where
  mode : String
  shadowConfidenceThreshold : ℚ
deriving DecidableEq, Repr

/-- LabExperimentRunRequest. -/
structure LabExperimentRunRequest where
  actor : String
  rationale : String
  experimentType : String
  candidateMode : LabMode
  candidateShadowConfidenceThreshold : ℚ
deriving DecidableEq, Repr

/-- The LabExperimentRunResult fields run_experiment returns.  The
round(improvement, 4) of the source only formats the reported estimate
and is not re-modelled; no decision reads the rounded value. -/
structure LabExperimentRunResult where
  runId : String
  status : String
  baseline : LabConfigPayload
  candidate : LabConfigPayload
  estimatedDelta : ℚ
  safetyGate : String
  applyAllowed : Bool
  applyBlockReason : Option String
deriving DecidableEq, Repr

/-- The LabExperimentRunEvent appended to the log, with the result
fields apply_experiment later re-reads. -/
structure LabExperimentRunEvent where
  runId : String
  actor : String
  experimentType : String
  candidateConfig : LabConfigPayload
  baselineConfig : LabConfigPayload
  applyAllowed : Bool
  applyBlockReason : Option String
  estimatedDelta : ℚ
  safetyGate : String
  rationale : String
deriving DecidableEq, Repr

/-- run_experiment: fixed improvement heuristics, the 0.4 hard safety
floor on the candidate threshold, and the persisted run event.  The
uuid4 run id is the parameter runId. -/
def runExperiment (req : LabExperimentRunRequest)
    (baseline : LabConfigPayload) (runId : String) :
    LabExperimentRunResult × LabExperimentRunEvent :=
  let candidate : LabConfigPayload :=
    ⟨req.candidateMode.value, req.candidateShadowConfidenceThreshold⟩
  let improvement : ℚ :=
    (if req.candidateMode = .bounded then mkRat 15 100
     else if req.candidateMode = .shadow then mkRat 7 100 else 0) +
    max 0 (mkRat 75 100 - req.candidateShadowConfidenceThreshold) *
      mkRat 1 10
  let applyAllowed : Bool :=
    req.candidateShadowConfidenceThreshold ≥ mkRat 4 10
  let blockReason : Option String :=
    if applyAllowed then none
    else some "candidate_shadow_confidence_threshold below safety floor"
  let safetyGate := if applyAllowed then "pass" else "blocked"
  (⟨runId, "completed", baseline, candidate, improvement, safetyGate,
      applyAllowed, blockReason⟩,
   ⟨runId, req.actor, req.experimentType, candidate, baseline,
      applyAllowed, blockReason, improvement, safetyGate, req.rationale⟩)

/-- One stored line of the event log as the lab routes read it back:
the serialized JSON keeps the event_type tag, and a lab_experiment_run
line keeps the full payload of the appended run event. -/
structure StoredLabLine where
  eventType : String
  run : Option LabExperimentRunEvent
deriving DecidableEq, Repr

/-- FileEventStore.append of a run event: model_dump_json writes the
whole payload under its event_type tag. -/
def serializeRunEvent (ev : LabExperimentRunEvent) : StoredLabLine :=
  ⟨"lab_experiment_run", some ev⟩

/-- An object stream_events hands back to the lab routes after
deserialization: a typed run event, one of the three other typed
classes (message_ingested, artifact_recorded, object_extracted; their
payloads are irrelevant to the lab routes), or a plain BaseEvent. -/
inductive LabStreamedItem where
  | base (eventType : String)
  | otherTyped (eventType : String)
  | labExperimentRun (ev : LabExperimentRunEvent)
deriving DecidableEq, Repr

/-- FileEventStore._deserialize_event: the type map covers only
message_ingested, artifact_recorded and object_extracted; every other
event_type - lab_experiment_run included - falls back to a plain
BaseEvent, whose class keeps none of the run payload.  A typed
labExperimentRun value therefore never comes out of the store. -/
def deserializeLabLine (l : StoredLabLine) : LabStreamedItem :=
  if l.eventType = "message_ingested" ∨ l.eventType = "artifact_recorded" ∨
      l.eventType = "object_extracted" then
    .otherTyped l.eventType
  else
    .base l.eventType

/-- stream_events(event_types=[LAB_EXPERIMENT_RUN]) as the apply route
calls it: filter the stored lines by type tag, then deserialize each
surviving line. -/
def streamLabRunEvents (log : List StoredLabLine) : List LabStreamedItem :=
  (log.filter (fun l => l.eventType = "lab_experiment_run")).map
    deserializeLabLine

/-- The isinstance(item, LabExperimentRunEvent) and run_id test of the
generator expression apply_experiment selects its target with. -/
def isRunWithId (runId : String) : LabStreamedItem → Bool
  | .labExperimentRun e => e.runId = runId
  | .base _ => false
  | .otherTyped _ => false

/-- The failure modes of apply_experiment: the 404 for a run the
streamed lookup does not find and the 409 conflict branch the route
raises when the stored safety gate blocks an apply. -/
inductive LabApplyError where
  | notFound
  | conflict (reason : String)
deriving DecidableEq, Repr

/-- apply_experiment: stream the lab_experiment_run events back from
the store, select the target with isinstance(LabExperimentRunEvent) and
a run_id match, answer 404 when no target is found, re-check the stored
apply_allowed with a 409 conflict before an apply, and otherwise
compute the new control state and status text.  The audit appends
(rejection, applied and control-change events) accompany the outcome
and do not influence it; they are not re-modelled. -/
def applyExperiment (log : List StoredLabLine)
    (before : LabConfigPayload) (runId action : String) :
    Except LabApplyError (String × LabConfigPayload) :=
  match (streamLabRunEvents log).find? (isRunWithId runId) with
  | some (.labExperimentRun target) =>
      if action = "apply" ∧ ¬ target.applyAllowed then
        .error (.conflict (target.applyBlockReason.getD
          "safety gate blocked apply"))
      else if action = "apply" then
        .ok ("updated", target.candidateConfig)
      else if action = "rollback" then
        .ok ("rolled_back", ⟨"deterministic", mkRat 6 10⟩)
      else
        .ok ("no_op", before)
  | _ => .error .notFound

-- ===================================================================
-- File event store (services/event_store/file_store.py)
-- ===================================================================

/-- One stored event line as stream_events reads it.  Undecodable lines
are skipped by the source and not modelled; files hold decoded events. -/
structure SEvent where
  eventId : String
  eventType : String
  timestamp : ℚ
deriving DecidableEq, Repr

/-- FileEventStore.stream_events over the daily partition files, given
as (day key, lines) pairs: files are visited in sorted filename order
(equivalently ascending day key, since the zero-padded date is the only
varying filename part), lines in file order, and each event passes the
since and event_types filters of the source.  An empty types list, like
None, filters nothing (the source tests the list for truthiness). -/
def streamEvents (files : List (Nat × List SEvent)) (since : Option ℚ)
    (eventTypes : Option (List String)) : List SEvent :=
  (((files.insertionSort (fun a b => a.1 ≤ b.1)).map Prod.snd).flatten).filter
    (fun e =>
      (match since with
       | none => true
       | some s => ¬ (e.timestamp < s)) &&
      (match eventTypes with
       | none => true
       | some ts => ts.isEmpty || ts.contains e.eventType))

/-- An open p2 task used to exercise the shadow-score failure path. -/
def c7Task : TaskRow :=
  { taskId := "t7", title := "T7", body := none, status := .open_
    priority := .p2, dueAt := none, doNotStartBefore := none, createdAt := 0
    updatedAt := 0, completedAt := none, source := "api", sourceRef := "r7"
    dedupGroupId := none, labels := [], project := none, blockedBy := []
    agentNotes := none, explanations := [] }

/-- An existing open task sharing the dedup group of the identity-hash
key of title T with empty body and project. -/
def c9Row : TaskRow :=
  { taskId := "t0", title := "T", body := none, status := .open_, priority := .p2
    dueAt := none, doNotStartBefore := none, createdAt := 0, updatedAt := 0
    completedAt := none, source := "api", sourceRef := "r0"
    dedupGroupId := some "t||", labels := ["keep"], project := none
    blockedBy := [], agentNotes := none, explanations := [] }

/-- A two-line log: one extracted todo, and one decision_recorded line
carrying a task snapshot - which the store hands back to the rebuild as
a plain BaseEvent, so the rebuild drops it. -/
def c2Log : List PEvent :=
  [PEvent.objectExtracted "m1"
     (.todo ⟨"o1", "Call Bob", none, "pending", "medium", none, 0,
       none, [], "m1"⟩),
   PEvent.decisionRecorded "task" (some
     { taskId := "snap", title := "S", body := none, status := .open_
       priority := .p2, dueAt := none, doNotStartBefore := none
       createdAt := 0, updatedAt := 0, completedAt := none
       source := "api", sourceRef := "rs", dedupGroupId := none
       labels := [], project := none, blockedBy := [], agentNotes := none
       explanations := [] })]

-- ===================================================================
-- Helper lemmas
-- ===================================================================

theorem upsertBy_eq_append {α : Type} (key : α → String) (row : α) (l : List α)
    (h : ∀ r ∈ l, key r ≠ key row) : upsertBy key row l = l ++ [row] := by
  induction l with
  | nil => rfl
  | cons r rs ih =>
      simp only [upsertBy, List.cons_append]
      rw [if_neg (h r (List.mem_cons_self r rs)),
        ih (fun x hx => h x (List.mem_cons_of_mem r hx))]

theorem ingestTask_not_found (hash : String → String) (tasks : List TaskRow)
    (req : TaskIngestRequest) (now : ℚ) (fid : String)
    (hnew : findBySourceRef tasks req.source req.sourceRef = none) :
    ingestTask hash tasks req now fid =
      (⟨fid, true, some (ingestLabelsRationale hash tasks req).2⟩,
        [.upsertTask (ingestNewRow hash tasks req now fid), .commit,
          .appendEvent
            { domain := "task", action := "ingest_created", source := req.source
              sourceRef := req.sourceRef
              taskSnapshot := some (ingestNewRow hash tasks req now fid)
              rationale := (ingestLabelsRationale hash tasks req).2 }]) := by
  unfold ingestTask
  rw [hnew]

theorem ingestTask_found (hash : String → String) (tasks : List TaskRow)
    (req : TaskIngestRequest) (now : ℚ) (fid : String) (t : TaskRow)
    (hfound : findBySourceRef tasks req.source req.sourceRef = some t) :
    ingestTask hash tasks req now fid =
      (⟨t.taskId, false, some "Idempotent ingest hit existing task for source/source_ref"⟩,
        [.appendEvent
          { domain := "task", action := "ingest_existing", source := req.source
            sourceRef := req.sourceRef, taskSnapshot := findById tasks t.taskId
            rationale := "Idempotent ingest hit existing task for source/source_ref" }]) := by
  unfold ingestTask
  rw [hfound]

theorem findBySourceRef_append_new (tasks : List TaskRow) (row : TaskRow)
    (source sourceRef : String)
    (hnone : findBySourceRef tasks source sourceRef = none)
    (hs : row.source = source) (hr : row.sourceRef = sourceRef) :
    findBySourceRef (tasks ++ [row]) source sourceRef = some row := by
  unfold findBySourceRef at *
  rw [List.find?_append, hnone]
  simp [hs, hr]

theorem optTimeLE_total (a b : Option ℚ) :
    optTimeLE a b = true ∨ optTimeLE b a = true := by
  cases a <;> cases b <;> simp [optTimeLE]
  exact le_total _ _

theorem optTimeLE_trans (a b c : Option ℚ) (h₁ : optTimeLE a b = true)
    (h₂ : optTimeLE b c = true) : optTimeLE a c = true := by
  cases a <;> cases b <;> cases c <;> simp_all [optTimeLE]
  exact le_trans h₁ h₂

theorem lexB_total {α κ : Type} [LinearOrder κ] (f : α → κ)
    (tail : α → α → Bool) (htail : ∀ a b, tail a b = true ∨ tail b a = true)
    (a b : α) : lexB f tail a b = true ∨ lexB f tail b a = true := by
  unfold lexB
  by_cases h : f a = f b
  · rw [if_neg (not_not_intro h), if_neg (not_not_intro h.symm)]
    exact htail a b
  · rcases lt_or_gt_of_ne h with hlt | hgt
    · left
      rw [if_pos h]
      exact decide_eq_true hlt
    · right
      rw [if_pos (Ne.symm h)]
      exact decide_eq_true hgt

theorem lexB_trans {α κ : Type} [LinearOrder κ] (f : α → κ)
    (tail : α → α → Bool)
    (htail : ∀ a b c, tail a b = true → tail b c = true → tail a c = true)
    (a b c : α) (h₁ : lexB f tail a b = true) (h₂ : lexB f tail b c = true) :
    lexB f tail a c = true := by
  unfold lexB at *
  by_cases hab : f a = f b
  · rw [if_neg (not_not_intro hab)] at h₁
    by_cases hbc : f b = f c
    · rw [if_neg (not_not_intro hbc)] at h₂
      rw [if_neg (not_not_intro (hab.trans hbc))]
      exact htail a b c h₁ h₂
    · rw [if_pos hbc] at h₂
      have hac : f a < f c := hab ▸ of_decide_eq_true h₂
      rw [if_pos (ne_of_lt hac)]
      exact decide_eq_true hac
  · rw [if_pos hab] at h₁
    have h₁' : f a < f b := of_decide_eq_true h₁
    by_cases hbc : f b = f c
    · have hac : f a < f c := hbc ▸ h₁'
      rw [if_pos (ne_of_lt hac)]
      exact decide_eq_true hac
    · rw [if_pos hbc] at h₂
      have hac := lt_trans h₁' (of_decide_eq_true h₂)
      rw [if_pos (ne_of_lt hac)]
      exact decide_eq_true hac

theorem lexB_le {α κ : Type} [LinearOrder κ] (f : α → κ)
    (tail : α → α → Bool) (a b : α) (h : lexB f tail a b = true) :
    f a ≤ f b := by
  unfold lexB at h
  by_cases hab : f a = f b
  · exact le_of_eq hab
  · rw [if_pos hab] at h
    exact le_of_lt (of_decide_eq_true h)

theorem tieLE_total (a b : Cand) :
    lexB (fun c : Cand => -c.urgency)
      (fun a b => optTimeLE a.updatedAt b.updatedAt) a b = true ∨
    lexB (fun c : Cand => -c.urgency)
      (fun a b => optTimeLE a.updatedAt b.updatedAt) b a = true :=
  lexB_total _ _ (fun x y => optTimeLE_total x.updatedAt y.updatedAt) a b

theorem tieLE_trans (a b c : Cand)
    (h₁ : lexB (fun c : Cand => -c.urgency)
      (fun a b => optTimeLE a.updatedAt b.updatedAt) a b = true)
    (h₂ : lexB (fun c : Cand => -c.urgency)
      (fun a b => optTimeLE a.updatedAt b.updatedAt) b c = true) :
    lexB (fun c : Cand => -c.urgency)
      (fun a b => optTimeLE a.updatedAt b.updatedAt) a c = true :=
  lexB_trans _ _ (fun x y z => optTimeLE_trans x.updatedAt y.updatedAt z.updatedAt)
    a b c h₁ h₂

instance : IsTotal Cand detLE :=
  ⟨fun a b => lexB_total _ _ tieLE_total a b⟩

instance : IsTrans Cand detLE :=
  ⟨fun a b c => lexB_trans _ _ tieLE_trans a b c⟩

instance : IsTotal Cand modLE :=
  ⟨fun a b => lexB_total _ _ tieLE_total a b⟩

instance : IsTrans Cand modLE :=
  ⟨fun a b c => lexB_trans _ _ tieLE_trans a b c⟩

theorem detLE_rank_le {a b : Cand} (h : detLE a b) :
    a.bucketRank ≤ b.bucketRank :=
  lexB_le _ _ a b h

theorem spliceEligible_length (ids : List String) (queue items : List Cand) :
    (spliceEligible ids queue items).length = items.length := by
  induction items generalizing queue with
  | nil => rfl
  | cons item rest ih =>
      unfold spliceEligible
      by_cases hc : ids.contains item.taskId
      · rw [if_pos hc]
        cases queue with
        | nil => simpa using ih []
        | cons q queue2 => simpa using ih queue2
      · rw [if_neg hc]
        simpa using ih queue

theorem spliceEligible_get?_of_not_contains (ids : List String)
    (queue items : List Cand) (n : Nat) (c : Cand)
    (hn : items.get? n = some c) (hc : ids.contains c.taskId = false) :
    (spliceEligible ids queue items).get? n = some c := by
  induction items generalizing queue n with
  | nil => simp at hn
  | cons item rest ih =>
      cases n with
      | zero =>
          simp only [List.get?_cons_zero, Option.some.injEq] at hn
          subst hn
          unfold spliceEligible
          rw [if_neg (by rw [hc]; exact Bool.false_ne_true)]
          rfl
      | succ m =>
          simp only [List.get?_cons_succ] at hn
          unfold spliceEligible
          by_cases hi : ids.contains item.taskId
          · rw [if_pos hi]
            cases queue with
            | nil => simpa using ih [] m hn
            | cons q queue2 => simpa using ih queue2 m hn
          · rw [if_neg hi]
            simpa using ih queue m hn

theorem spliceEligible_filter_pos (ids : List String) (queue items : List Cand)
    (hq : ∀ q ∈ queue, ids.contains q.taskId = true)
    (hlen : items.countP (fun c => ids.contains c.taskId) = queue.length) :
    (spliceEligible ids queue items).filter
      (fun c => ids.contains c.taskId) = queue.map setApplied := by
  induction items generalizing queue with
  | nil =>
      simp only [List.countP_nil] at hlen
      rw [List.eq_nil_of_length_eq_zero hlen.symm]
      rfl
  | cons item rest ih =>
      by_cases hi : ids.contains item.taskId
      · rw [List.countP_cons_of_pos _ _ (by simpa using hi)] at hlen
        cases queue with
        | nil => simp at hlen
        | cons q queue2 =>
            unfold spliceEligible
            rw [if_pos hi]
            have hsq : ids.contains (setApplied q).taskId = true :=
              hq q (List.mem_cons_self q queue2)
            simp only [List.filter_cons, hsq, List.map_cons, if_true]
            rw [ih queue2 (fun x hx => hq x (List.mem_cons_of_mem q hx))
              (by simpa using hlen)]
      · rw [List.countP_cons_of_neg _ _ (by simpa using hi)] at hlen
        unfold spliceEligible
        rw [if_neg hi]
        simp only [List.filter_cons, hi]
        exact ih queue hq hlen

theorem spliceEligible_filter_neg (ids : List String) (queue items : List Cand)
    (hq : ∀ q ∈ queue, ids.contains q.taskId = true)
    (hlen : items.countP (fun c => ids.contains c.taskId) = queue.length) :
    (spliceEligible ids queue items).filter
      (fun c => !(ids.contains c.taskId)) =
    items.filter (fun c => !(ids.contains c.taskId)) := by
  induction items generalizing queue with
  | nil =>
      simp only [List.countP_nil] at hlen
      rw [List.eq_nil_of_length_eq_zero hlen.symm]
      rfl
  | cons item rest ih =>
      by_cases hi : ids.contains item.taskId
      · rw [List.countP_cons_of_pos _ _ (by simpa using hi)] at hlen
        cases queue with
        | nil => simp at hlen
        | cons q queue2 =>
            unfold spliceEligible
            rw [if_pos hi]
            have hsq : ids.contains (setApplied q).taskId = true :=
              hq q (List.mem_cons_self q queue2)
            simp only [List.filter_cons, hsq, hi, Bool.not_true, if_neg]
            simp only [Bool.false_eq_true, if_false]
            exact ih queue2 (fun x hx => hq x (List.mem_cons_of_mem q hx))
              (by simpa using hlen)
      · rw [List.countP_cons_of_neg _ _ (by simpa using hi)] at hlen
        unfold spliceEligible
        rw [if_neg hi]
        have hi' : (ids.contains item.taskId) = false := by
          simpa using hi
        simp only [List.filter_cons, hi', Bool.not_false, if_true]
        rw [ih queue hq hlen]

theorem spliceEligible_mem (ids : List String) (queue items : List Cand)
    (c : Cand) (h : c ∈ spliceEligible ids queue items) :
    c ∈ items ∨ ∃ q ∈ queue, c = setApplied q := by
  induction items generalizing queue with
  | nil => simp [spliceEligible] at h
  | cons item rest ih =>
      unfold spliceEligible at h
      by_cases hi : ids.contains item.taskId
      · rw [if_pos hi] at h
        cases queue with
        | nil =>
            rcases List.mem_cons.mp h with rfl | h'
            · exact Or.inl (List.mem_cons_self _ _)
            · rcases ih [] h' with hm | ⟨q, hq, _⟩
              · exact Or.inl (List.mem_cons_of_mem _ hm)
              · simp at hq
        | cons q queue2 =>
            rcases List.mem_cons.mp h with rfl | h'
            · exact Or.inr ⟨q, List.mem_cons_self _ _, rfl⟩
            · rcases ih queue2 h' with hm | ⟨q', hq', he⟩
              · exact Or.inl (List.mem_cons_of_mem _ hm)
              · exact Or.inr ⟨q', List.mem_cons_of_mem _ hq', he⟩
      · rw [if_neg hi] at h
        rcases List.mem_cons.mp h with rfl | h'
        · exact Or.inl (List.mem_cons_self _ _)
        · rcases ih queue h' with hm | ⟨q', hq', he⟩
          · exact Or.inl (List.mem_cons_of_mem _ hm)
          · exact Or.inr ⟨q', hq', he⟩

theorem eq_of_map_taskId_eq (items : List Cand)
    (hids : (items.map Cand.taskId).Nodup) (l₁ : List Cand) :
    ∀ (l₂ : List Cand), (∀ x ∈ l₁, x ∈ items) → (∀ x ∈ l₂, x ∈ items) →
      l₁.map Cand.taskId = l₂.map Cand.taskId → l₁ = l₂ := by
  induction l₁ with
  | nil =>
      intro l₂ _ _ hm
      cases l₂ with
      | nil => rfl
      | cons b l₂' => simp at hm
  | cons a l ih =>
      intro l₂ hs₁ hs₂ hm
      cases l₂ with
      | nil => simp at hm
      | cons b l₂' =>
          simp only [List.map_cons, List.cons.injEq] at hm
          have hab : a = b :=
            List.inj_on_of_nodup_map hids (hs₁ a (List.mem_cons_self a l))
              (hs₂ b (List.mem_cons_self b l₂')) hm.1
          rw [hab, ih l₂' (fun x hx => hs₁ x (List.mem_cons_of_mem a hx))
            (fun x hx => hs₂ x (List.mem_cons_of_mem b hx)) hm.2]

theorem contains_eligIds_iff (θ : ℚ) (items : List Cand)
    (hids : (items.map Cand.taskId).Nodup) (c : Cand) (hc : c ∈ items) :
    (((items.filter (isEligibleB θ)).map Cand.taskId).contains c.taskId = true)
      ↔ isEligibleB θ c = true := by
  constructor
  · intro h
    have hmem : c.taskId ∈ (items.filter (isEligibleB θ)).map Cand.taskId := by
      simpa using h
    obtain ⟨e, he, heq⟩ := List.mem_map.mp hmem
    have heqc : e = c :=
      List.inj_on_of_nodup_map hids (List.mem_of_mem_filter he) hc heq
    exact heqc ▸ (List.mem_filter.mp he).2
  · intro h
    have : c.taskId ∈ (items.filter (isEligibleB θ)).map Cand.taskId :=
      List.mem_map.mpr ⟨c, List.mem_filter.mpr ⟨hc, h⟩, rfl⟩
    simpa using this

theorem filter_contains_eq_filter_elig (θ : ℚ) (items : List Cand)
    (hids : (items.map Cand.taskId).Nodup) :
    items.filter (fun c =>
      ((items.filter (isEligibleB θ)).map Cand.taskId).contains c.taskId) =
    items.filter (isEligibleB θ) :=
  List.filter_congr (fun c hc => by
    have h := contains_eligIds_iff θ items hids c hc
    cases hb : isEligibleB θ c with
    | true => exact h.mpr hb
    | false =>
        rcases Bool.eq_false_or_eq_true
          (((items.filter (isEligibleB θ)).map Cand.taskId).contains c.taskId)
          with ht | hf
        · rw [h.mp ht] at hb
          exact absurd hb (by simp)
        · exact hf)

theorem mem_dedupKeepOrder {α : Type} [DecidableEq α] (a : α) (l : List α) :
    a ∈ dedupKeepOrder l ↔ a ∈ l := by
  induction l with
  | nil => simp [dedupKeepOrder]
  | cons x xs ih =>
      simp only [dedupKeepOrder, List.mem_cons, List.mem_filter]
      constructor
      · rintro (rfl | ⟨h, _⟩)
        · exact Or.inl rfl
        · exact Or.inr (ih.mp h)
      · rintro (rfl | h)
        · exact Or.inl rfl
        · by_cases hax : a = x
          · exact Or.inl hax
          · exact Or.inr ⟨ih.mpr h, by simpa using hax⟩

theorem nodup_dedupKeepOrder {α : Type} [DecidableEq α] (l : List α) :
    (dedupKeepOrder l).Nodup := by
  induction l with
  | nil => simp [dedupKeepOrder]
  | cons x xs ih =>
      simp only [dedupKeepOrder, List.nodup_cons]
      refine ⟨fun hmem => ?_, ih.filter _⟩
      have := (List.mem_filter.mp hmem).2
      simp at this

theorem flatten_filter_classes_perm (ranks : List Nat) :
    ∀ (det : List Cand), ranks.Nodup → (∀ c ∈ det, c.bucketRank ∈ ranks) →
      ((ranks.map (fun r =>
        det.filter (fun c => c.bucketRank = r))).flatten).Perm det := by
  induction ranks with
  | nil =>
      intro det _ hcov
      cases det with
      | nil => simp
      | cons c cs => exact absurd (hcov c (List.mem_cons_self c cs)) (by simp)
  | cons r rs ih =>
      intro det hnd hcov
      simp only [List.map_cons, List.flatten_cons]
      have hclass : ∀ r' ∈ rs, det.filter (fun c => c.bucketRank = r') =
          (det.filter (fun c => !(c.bucketRank = r))).filter
            (fun c => c.bucketRank = r') := by
        intro r' hr'
        rw [List.filter_filter]
        apply List.filter_congr
        intro c _
        by_cases hc : c.bucketRank = r'
        · have hne : ¬ (c.bucketRank = r) := by
            rw [hc]
            intro he
            exact (List.nodup_cons.mp hnd).1 (he ▸ hr')
          have hne' : ¬ (r' = r) := fun he => hne (hc.trans he)
          simp [hc, hne']
        · simp [hc]
      have hmapeq : rs.map (fun r' => det.filter (fun c => c.bucketRank = r')) =
          rs.map (fun r' => (det.filter (fun c => !(c.bucketRank = r))).filter
            (fun c => c.bucketRank = r')) :=
        List.map_congr_left hclass
      rw [hmapeq]
      have hih := ih (det.filter (fun c => !(c.bucketRank = r)))
        (List.nodup_cons.mp hnd).2
        (fun c hc => by
          have hm := List.mem_of_mem_filter hc
          have hne := (List.mem_filter.mp hc).2
          rcases List.mem_cons.mp (hcov c hm) with he | hrs
          · rw [he] at hne
            simp at hne
          · exact hrs)
      exact (List.Perm.append_left _ hih).trans (List.filter_append_perm _ det)

theorem flatten_perm_of_forall₂ {α : Type} {L₁ L₂ : List (List α)}
    (h : List.Forall₂ List.Perm L₁ L₂) : L₁.flatten.Perm L₂.flatten := by
  induction h with
  | nil => rfl
  | cons h₁ _ ih => simpa using h₁.append ih

theorem sorted_flatten_replicate (ranks : List Nat) (n : Nat → Nat)
    (hs : ranks.Sorted (· ≤ ·)) :
    ((ranks.map (fun r => List.replicate (n r) r)).flatten).Sorted (· ≤ ·) := by
  induction ranks with
  | nil => simp
  | cons r rs ih =>
      simp only [List.map_cons, List.flatten_cons]
      refine List.pairwise_append.mpr ⟨?_, ih hs.of_cons, ?_⟩
      · exact List.pairwise_replicate.mpr (Or.inr (le_refl r))
      · intro a ha b hb
        rcases List.mem_flatten.mp hb with ⟨blk, hblk, hbb⟩
        rcases List.mem_map.mp hblk with ⟨r', hr', rfl⟩
        rw [List.eq_of_mem_replicate ha, List.eq_of_mem_replicate hbb]
        exact List.rel_of_sorted_cons hs r' hr'

theorem reorderBucket_length (θ : ℚ) (l : List Cand) :
    (reorderBucketWithModel θ l).length = l.length := by
  simp only [reorderBucketWithModel]
  by_cases h1 : (l.filter (isEligibleB θ)).length < 2
  · rw [if_pos h1]
  · rw [if_neg h1]
    by_cases h2 : (l.filter (isEligibleB θ)).map Cand.taskId =
        ((l.filter (isEligibleB θ)).insertionSort modLE).map Cand.taskId
    · rw [if_pos h2]
    · rw [if_neg h2]
      exact spliceEligible_length _ _ _

theorem reorderBucket_mem (θ : ℚ) (l : List Cand) (c : Cand)
    (h : c ∈ reorderBucketWithModel θ l) :
    c ∈ l ∨ ∃ q ∈ l, c = setApplied q := by
  simp only [reorderBucketWithModel] at h
  by_cases h1 : (l.filter (isEligibleB θ)).length < 2
  · rw [if_pos h1] at h
    exact Or.inl h
  · rw [if_neg h1] at h
    by_cases h2 : (l.filter (isEligibleB θ)).map Cand.taskId =
        ((l.filter (isEligibleB θ)).insertionSort modLE).map Cand.taskId
    · rw [if_pos h2] at h
      exact Or.inl h
    · rw [if_neg h2] at h
      rcases spliceEligible_mem _ _ _ c h with hm | ⟨q, hq, he⟩
      · exact Or.inl hm
      · exact Or.inr ⟨q, List.mem_of_mem_filter
          ((List.perm_insertionSort modLE _).mem_iff.mp hq), he⟩

theorem reorderBucket_rank (θ : ℚ) (l : List Cand) (r : Nat)
    (hr : ∀ c ∈ l, c.bucketRank = r) (c : Cand)
    (h : c ∈ reorderBucketWithModel θ l) : c.bucketRank = r := by
  rcases reorderBucket_mem θ l c h with hm | ⟨q, hq, rfl⟩
  · exact hr c hm
  · exact hr q hq

theorem reorderBucket_map_perm {β : Type} (proj : Cand → β)
    (hproj : ∀ c, proj (setApplied c) = proj c) (θ : ℚ) (l : List Cand)
    (hids : (l.map Cand.taskId).Nodup) :
    ((reorderBucketWithModel θ l).map proj).Perm (l.map proj) := by
  simp only [reorderBucketWithModel]
  by_cases h1 : (l.filter (isEligibleB θ)).length < 2
  · rw [if_pos h1]
  · rw [if_neg h1]
    by_cases h2 : (l.filter (isEligibleB θ)).map Cand.taskId =
        ((l.filter (isEligibleB θ)).insertionSort modLE).map Cand.taskId
    · rw [if_pos h2]
    · rw [if_neg h2]
      have hq : ∀ q ∈ (l.filter (isEligibleB θ)).insertionSort modLE,
          (((l.filter (isEligibleB θ)).map Cand.taskId).contains
            q.taskId) = true := by
        intro q hqq
        have : q.taskId ∈ (l.filter (isEligibleB θ)).map Cand.taskId :=
          List.mem_map.mpr
            ⟨q, (List.perm_insertionSort modLE _).mem_iff.mp hqq, rfl⟩
        simpa using this
      have hlen : l.countP (fun c =>
          ((l.filter (isEligibleB θ)).map Cand.taskId).contains c.taskId) =
          ((l.filter (isEligibleB θ)).insertionSort modLE).length := by
        rw [List.countP_eq_length_filter,
          filter_contains_eq_filter_elig θ l hids,
          (List.perm_insertionSort modLE (l.filter (isEligibleB θ))).length_eq]
      have hsplit := List.filter_append_perm (fun c =>
          ((l.filter (isEligibleB θ)).map Cand.taskId).contains c.taskId)
        (spliceEligible ((l.filter (isEligibleB θ)).map Cand.taskId)
          ((l.filter (isEligibleB θ)).insertionSort modLE) l)
      have step1 := (hsplit.map proj).symm
      rw [List.map_append, spliceEligible_filter_pos _ _ _ hq hlen,
        spliceEligible_filter_neg _ _ _ hq hlen] at step1
      have e1 : ((((l.filter (isEligibleB θ)).insertionSort modLE).map
          setApplied).map proj) =
          ((l.filter (isEligibleB θ)).insertionSort modLE).map proj := by
        rw [List.map_map]
        exact List.map_congr_left (fun x _ => hproj x)
      rw [e1] at step1
      have e2 : (((l.filter (isEligibleB θ)).insertionSort modLE).map
          proj).Perm ((l.filter (fun c =>
            ((l.filter (isEligibleB θ)).map Cand.taskId).contains
              c.taskId)).map proj) := by
        rw [filter_contains_eq_filter_elig θ l hids]
        exact (List.perm_insertionSort modLE _).map proj
      have step2 := step1.trans (e2.append (List.Perm.refl _))
      have hsplit2 := List.filter_append_perm (fun c =>
          ((l.filter (isEligibleB θ)).map Cand.taskId).contains c.taskId) l
      have step3 : ((l.filter (fun c =>
          ((l.filter (isEligibleB θ)).map Cand.taskId).contains
            c.taskId)).map proj ++ (l.filter (fun c =>
          !(((l.filter (isEligibleB θ)).map Cand.taskId).contains
            c.taskId))).map proj).Perm (l.map proj) := by
        rw [← List.map_append]
        exact hsplit2.map proj
      exact step2.trans step3

theorem forall₂_perm_map_map {α β : Type} (l : List α) (f g : α → List β)
    (h : ∀ x ∈ l, (f x).Perm (g x)) :
    List.Forall₂ List.Perm (l.map f) (l.map g) := by
  induction l with
  | nil => exact List.Forall₂.nil
  | cons x xs ih =>
      exact List.Forall₂.cons (h x (List.mem_cons_self x xs))
        (ih (fun y hy => h y (List.mem_cons_of_mem x hy)))

theorem deterministicOrder_map_taskId (b : Bool) (items : List Cand) :
    (deterministicOrder b items).map Cand.taskId =
      (items.insertionSort detLE).map Cand.taskId := by
  unfold deterministicOrder
  rw [List.map_map]
  exact List.map_congr_left (fun x _ => rfl)

theorem deterministicOrder_map_rank (b : Bool) (items : List Cand) :
    (deterministicOrder b items).map Cand.bucketRank =
      (items.insertionSort detLE).map Cand.bucketRank := by
  unfold deterministicOrder
  rw [List.map_map]
  exact List.map_congr_left (fun x _ => rfl)

theorem deterministicOrder_nodup (b : Bool) (items : List Cand)
    (hids : (items.map Cand.taskId).Nodup) :
    ((deterministicOrder b items).map Cand.taskId).Nodup := by
  rw [deterministicOrder_map_taskId]
  exact ((List.perm_insertionSort detLE items).map Cand.taskId).nodup_iff.mpr
    hids

theorem deterministicOrder_rank_sorted (b : Bool) (items : List Cand) :
    ((deterministicOrder b items).map Cand.bucketRank).Sorted (· ≤ ·) := by
  rw [deterministicOrder_map_rank]
  exact List.Pairwise.map Cand.bucketRank (fun a b hab => detLE_rank_le hab)
    (List.sorted_insertionSort detLE items)

theorem taskRowRel_mono {f₁ f₂ : Nat → String}
    {k k' : Nat} (hk : k ≤ k') {r₁ r₂ : TaskRow}
    (h : TaskRowRel f₁ f₂ k r₁ r₂) : TaskRowRel f₁ f₂ k' r₁ r₂ := by
  obtain ⟨he, j, hj, h1, h2⟩ := h
  exact ⟨he, j, lt_of_lt_of_le hj hk, h1, h2⟩

theorem upsertBy_forall₂ {α : Type} (key : α → String) (R : α → α → Prop)
    (hkeyR : ∀ a b, R a b → key a = key b) {l₁ l₂ : List α}
    (h : List.Forall₂ R l₁ l₂) {row₁ row₂ : α} (hrow : R row₁ row₂)
    (hkrow : key row₁ = key row₂) :
    List.Forall₂ R (upsertBy key row₁ l₁) (upsertBy key row₂ l₂) := by
  induction h with
  | nil => exact .cons hrow .nil
  | @cons a b l₁' l₂' hab htail ih =>
      unfold upsertBy
      by_cases hm : key a = key row₁
      · rw [if_pos hm, if_pos (by rw [← hkeyR a b hab, ← hkrow]; exact hm)]
        exact .cons hrow htail
      · rw [if_neg hm, if_neg (by rw [← hkeyR a b hab, ← hkrow]; exact hm)]
        exact .cons hab ih

theorem forall₂_append_single {α : Type} {R : α → α → Prop}
    {l₁ l₂ : List α} (h : List.Forall₂ R l₁ l₂) {a b : α} (hab : R a b) :
    List.Forall₂ R (l₁ ++ [a]) (l₂ ++ [b]) := by
  induction h with
  | nil => exact .cons hab .nil
  | cons hxy _ ih => exact .cons hxy ih

theorem taskRel_classify_left {f₁ f₂ : Nat → String}
    {k : Nat} {T₁ T₂ : List TaskRow}
    (h : List.Forall₂ (TaskRowRel f₁ f₂ k) T₁ T₂) :
    ∀ r ∈ T₁, ∃ j, j < k ∧ r.taskId = f₁ j := by
  induction h with
  | nil => intro r hr; simp at hr
  | cons hab _ ih =>
      intro r hr
      rcases List.mem_cons.mp hr with rfl | hr'
      · obtain ⟨_, j, hj, h1, _⟩ := hab
        exact ⟨j, hj, h1⟩
      · exact ih r hr'

theorem taskRel_classify_right {f₁ f₂ : Nat → String}
    {k : Nat} {T₁ T₂ : List TaskRow}
    (h : List.Forall₂ (TaskRowRel f₁ f₂ k) T₁ T₂) :
    ∀ r ∈ T₂, ∃ j, j < k ∧ r.taskId = f₂ j := by
  induction h with
  | nil => intro r hr; simp at hr
  | cons hab _ ih =>
      intro r hr
      rcases List.mem_cons.mp hr with rfl | hr'
      · obtain ⟨_, j, hj, _, h2⟩ := hab
        exact ⟨j, hj, h2⟩
      · exact ih r hr'

theorem taskRowRel_proj {f₁ f₂ : Nat → String} {k : Nat}
    {r₁ r₂ : TaskRow} (h : TaskRowRel f₁ f₂ k r₁ r₂) :
    r₁.source = r₂.source ∧ r₁.sourceRef = r₂.sourceRef :=
  ⟨congrArg (fun r => r.source) h.1, congrArg (fun r => r.sourceRef) h.1⟩

theorem find?_isSome_forall₂ {α : Type} {R : α → α → Prop}
    {l₁ l₂ : List α} (h : List.Forall₂ R l₁ l₂) (p : α → Bool)
    (hp : ∀ a b, R a b → p a = p b) :
    (l₁.find? p).isSome = (l₂.find? p).isSome := by
  induction h with
  | nil => rfl
  | @cons a b l₁' l₂' hab _ ih =>
      rw [List.find?_cons, List.find?_cons, ← hp a b hab]
      by_cases hpa : p a = true
      · rw [hpa]
        rfl
      · rw [Bool.eq_false_iff.mpr hpa]
        exact ih

theorem map_eq_of_forall₂ {α β : Type} (g : α → β) {R : α → α → Prop}
    (hR : ∀ a b, R a b → g a = g b) {l₁ l₂ : List α}
    (h : List.Forall₂ R l₁ l₂) : l₁.map g = l₂.map g := by
  induction h with
  | nil => rfl
  | cons hab _ ih => simp only [List.map_cons, hR _ _ hab, ih]

theorem applyPEvent_rel (f₁ f₂ : Nat → String)
    (t₁ t₂ : ℚ)
    (hinj₁ : Function.Injective f₁) (hinj₂ : Function.Injective f₂)
    (p₁ p₂ : ProjState × List (String × Nat) × Nat)
    (h : RebuildRel f₁ f₂ p₁ p₂) (e : PEvent) :
    RebuildRel f₁ f₂ (applyPEvent t₁ f₁ p₁ e) (applyPEvent t₂ f₂ p₂ e) := by
  obtain ⟨st₁, ord₁, k₁⟩ := p₁
  obtain ⟨st₂, ord₂, k₂⟩ := p₂
  obtain ⟨htd, hnt, htr, hts, hord, hk⟩ := h
  simp only at hord hk hts
  subst hord
  subst hk
  cases e with
  | decisionRecorded domain snap =>
      simp only [applyPEvent]
      exact ⟨htd, hnt, htr, hts, rfl, rfl⟩
  | objectExtracted sid obj =>
      cases obj with
      | note d =>
          simp only [applyPEvent]
          refine ⟨htd, ?_, htr, hts, rfl, rfl⟩
          exact upsertBy_forall₂ _ _
            (fun a b hab => congrArg (fun n => n.objectId) hab)
            hnt rfl rfl
      | track d =>
          simp only [applyPEvent]
          refine ⟨htd, hnt, ?_, hts, rfl, rfl⟩
          exact upsertBy_forall₂ _ _
            (fun a b hab => congrArg (fun n => n.objectId) hab)
            htr rfl rfl
      | todo d =>
          simp only [applyPEvent]
          have htd1 : List.Forall₂ (fun r₁ r₂ : TodoRow => r₁.todo = r₂.todo)
              (upsertBy (fun r => r.todo.objectId) ⟨d, t₁⟩ st₁.todos)
              (upsertBy (fun r => r.todo.objectId) ⟨d, t₂⟩ st₂.todos) :=
            upsertBy_forall₂ _ _
              (fun a b hab => congrArg (fun n => n.objectId) hab)
              htd rfl rfl
          simp only [canonicalizeTodoToTask]
          by_cases htitle : d.title = ""
          · rw [if_pos htitle, if_pos htitle]
            exact ⟨htd1, hnt, htr, hts, rfl, rfl⟩
          · rw [if_neg htitle, if_neg htitle]
            have hsome := find?_isSome_forall₂ hts
              (fun r => r.source = "api" && r.sourceRef =
                ("message_event:" ++ sid ++ ":todo:" ++ toString
                  (((ord₁.find? (fun p => p.1 = sid)).map Prod.snd).getD 0)))
              (fun a b hab => by
                obtain ⟨hs, hr⟩ := taskRowRel_proj hab
                simp only [hs, hr])
            by_cases hex : (findBySourceRef st₁.tasks "api"
                ("message_event:" ++ sid ++ ":todo:" ++ toString
                  (((ord₁.find? (fun p => p.1 = sid)).map
                    Prod.snd).getD 0))).isSome = true
            · have hex₂ : (findBySourceRef st₂.tasks "api"
                  ("message_event:" ++ sid ++ ":todo:" ++ toString
                    (((ord₁.find? (fun p => p.1 = sid)).map
                      Prod.snd).getD 0))).isSome = true := by
                unfold findBySourceRef at *
                rw [← hsome]
                exact hex
              rw [if_pos hex, if_pos hex₂]
              exact ⟨htd1, hnt, htr, hts, rfl, rfl⟩
            · have hex₂ : ¬ (findBySourceRef st₂.tasks "api"
                  ("message_event:" ++ sid ++ ":todo:" ++ toString
                    (((ord₁.find? (fun p => p.1 = sid)).map
                      Prod.snd).getD 0))).isSome = true := by
                unfold findBySourceRef at *
                rw [← hsome]
                exact hex
              rw [if_neg hex, if_neg hex₂]
              have hfr₁ : ∀ r ∈ st₁.tasks, r.taskId ≠ f₁ k₁ := by
                intro r hr he'
                obtain ⟨j, hj, hfj⟩ := taskRel_classify_left hts r hr
                rw [he'] at hfj
                exact absurd (hinj₁ hfj.symm) (Nat.ne_of_lt hj)
              have hfr₂ : ∀ r ∈ st₂.tasks, r.taskId ≠ f₂ k₁ := by
                intro r hr he'
                obtain ⟨j, hj, hfj⟩ := taskRel_classify_right hts r hr
                rw [he'] at hfj
                exact absurd (hinj₂ hfj.symm) (Nat.ne_of_lt hj)
              rw [upsertBy_eq_append TaskRow.taskId _ st₁.tasks hfr₁,
                upsertBy_eq_append TaskRow.taskId _ st₂.tasks hfr₂]
              refine ⟨htd1, hnt, htr, ?_, rfl, rfl⟩
              refine forall₂_append_single
                (List.Forall₂.imp (fun r₁ r₂ hr =>
                  taskRowRel_mono (Nat.le_succ k₁) hr) hts) ?_
              exact ⟨rfl, k₁, Nat.lt_succ_self k₁, rfl, rfl⟩

theorem foldl_rebuild_rel (f₁ f₂ : Nat → String)
    (t₁ t₂ : ℚ)
    (hinj₁ : Function.Injective f₁) (hinj₂ : Function.Injective f₂)
    (events : List PEvent) :
    ∀ p₁ p₂, RebuildRel f₁ f₂ p₁ p₂ →
      RebuildRel f₁ f₂ (events.foldl (applyPEvent t₁ f₁) p₁)
        (events.foldl (applyPEvent t₂ f₂) p₂) := by
  induction events with
  | nil =>
      intro p₁ p₂ h
      exact h
  | cons e es ih =>
      intro p₁ p₂ h
      simp only [List.foldl_cons]
      exact ih _ _
        (applyPEvent_rel f₁ f₂ t₁ t₂ hinj₁ hinj₂ p₁ p₂ h e)

theorem foldl_applyPEvent_filter (t : ℚ) (f : Nat → String)
    (events : List PEvent) :
    ∀ p, events.foldl (applyPEvent t f) p =
      (events.filter isExtractionEvent).foldl (applyPEvent t f) p := by
  induction events with
  | nil => intro p; rfl
  | cons e es ih =>
      intro p
      obtain ⟨st, ord, k⟩ := p
      cases e with
      | objectExtracted sid obj =>
          simp only [List.filter_cons, isExtractionEvent, if_true,
            List.foldl_cons]
          exact ih _
      | decisionRecorded d s =>
          simp only [List.filter_cons, isExtractionEvent, List.foldl_cons,
            Bool.false_eq_true, if_false, applyPEvent]
          exact ih _

-- ===================================================================
-- Claim theorems
-- ===================================================================

/-- C2 counterexample: one extracted todo event; rebuilding the same
one-event log at wall-clock hour 0 and at hour 1 yields different
derived rows (the canonicalized task row and the todos row embed the
run time), so rebuild is not independent of when it runs. -/
theorem rebuild_twice_differs :
    rebuildProjections [PEvent.objectExtracted "m1"
        (.todo ⟨"o1", "Call Bob", none, "pending", "medium", none, 0,
          none, [], "m1"⟩)] 0 (fun _ => "x") ≠
    rebuildProjections [PEvent.objectExtracted "m1"
        (.todo ⟨"o1", "Call Bob", none, "pending", "medium", none, 0,
          none, [], "m1"⟩)] 1 (fun _ => "x") := by
  decide

/-- C2 amended: the rebuild ignores decision_recorded events entirely -
the store deserializes them to plain BaseEvent, so the isinstance
dispatch of the rebuild loop skips them and decision-snapshot task rows
are dropped, not reproduced: rebuilding a log equals rebuilding its
object_extracted events alone.  Beyond that, rebuild is a pure function
of the event sequence, the run wall clock and the fresh uuid4 supply:
two rebuilds of the same log agree exactly on every derived row after
erasing the run-stamped values (the object rows wall-clock columns and
the fresh task_id, created_at and updated_at of task rows), provided
each run's fresh ids are distinct, as uuid4 guarantees in practice. -/
theorem rebuild_pure_up_to_run_stamps
    (events : List PEvent) (t₁ t₂ : ℚ) (f₁ f₂ : Nat → String)
    (hinj₁ : Function.Injective f₁) (hinj₂ : Function.Injective f₂) :
    rebuildProjections events t₁ f₁ =
      rebuildProjections (events.filter isExtractionEvent) t₁ f₁ ∧
    eraseRunStamps (rebuildProjections events t₁ f₁) =
      eraseRunStamps (rebuildProjections events t₂ f₂) := by
  constructor
  · unfold rebuildProjections
    rw [foldl_applyPEvent_filter]
  · have hrel := foldl_rebuild_rel f₁ f₂ t₁ t₂ hinj₁ hinj₂ events
      ⟨⟨[], [], [], []⟩, [], 0⟩ ⟨⟨[], [], [], []⟩, [], 0⟩
      ⟨List.Forall₂.nil, List.Forall₂.nil, List.Forall₂.nil,
        List.Forall₂.nil, rfl, rfl⟩
    obtain ⟨htd, hnt, htr, hts, _, _⟩ := hrel
    have h1 := map_eq_of_forall₂
      (fun r : TodoRow => { r with lastUpdatedAt := 0 })
      (fun a b hab => congrArg (fun t => TodoRow.mk t 0) hab) htd
    have h2 := map_eq_of_forall₂
      (fun r : NoteRow => { r with lastUpdatedAt := 0 })
      (fun a b hab => congrArg (fun t => NoteRow.mk t 0) hab) hnt
    have h3 := map_eq_of_forall₂
      (fun r : TrackRow => { r with projectionUpdatedAt := 0 })
      (fun a b hab => congrArg (fun t => TrackRow.mk t 0) hab) htr
    have h4 := map_eq_of_forall₂ eraseTaskStamp (fun a b hab => hab.1) hts
    unfold rebuildProjections eraseRunStamps
    rw [h1, h2, h3, h4]

/-- C2 amended witness: the theorem at a two-line log (one extracted
todo, one task decision snapshot) with two distinct run times and two
concrete injective fresh-id supplies. -/
theorem rebuild_pure_up_to_run_stamps_witness :
    (Function.Injective (fun n => String.mk (List.replicate n 'a'))) ∧
    (Function.Injective (fun n => String.mk (List.replicate n 'b'))) ∧
    (rebuildProjections c2Log 0 (fun n => String.mk (List.replicate n 'a')) =
       rebuildProjections (c2Log.filter isExtractionEvent) 0
         (fun n => String.mk (List.replicate n 'a')) ∧
     eraseRunStamps (rebuildProjections c2Log 0
         (fun n => String.mk (List.replicate n 'a'))) =
       eraseRunStamps (rebuildProjections c2Log 1
         (fun n => String.mk (List.replicate n 'b')))) :=
  ⟨fun _ _ h => List.replicate_left_injective 'a' (congrArg String.data h),
   fun _ _ h => List.replicate_left_injective 'b' (congrArg String.data h),
   rebuild_pure_up_to_run_stamps c2Log 0 1 _ _
     (fun _ _ h => List.replicate_left_injective 'a' (congrArg String.data h))
     (fun _ _ h => List.replicate_left_injective 'b' (congrArg String.data h))⟩

/-- C4: for every queue computation, the multiset of (task id, bucket
rank) assignments after the personalisation pass equals the one of the
deterministic order it starts from, the per-position sequence of bucket
ranks is unchanged, and the deterministic order lists bucket ranks in
non-decreasing order — so items in different buckets keep their relative
order and no item ever changes bucket. -/
theorem personalization_preserves_bucket_assignments
    (cfg : AttentionConfig) (items det out : List Cand)
    (hids : (items.map Cand.taskId).Nodup)
    (hdet : deterministicOrder cfg.enableBoundedPersonalization items = det)
    (hout : sortWithOptionalPersonalization cfg items = out) :
    (out.map (fun c => (c.taskId, c.bucketRank))).Perm
      (det.map (fun c => (c.taskId, c.bucketRank))) ∧
    out.map Cand.bucketRank = det.map Cand.bucketRank ∧
    (det.map Cand.bucketRank).Sorted (· ≤ ·) := by
  subst hdet
  subst hout
  refine ?_
  by_cases hb : cfg.enableBoundedPersonalization = true
  · simp only [sortWithOptionalPersonalization]
    rw [if_neg (by simp [hb])]
    have hdn := deterministicOrder_nodup cfg.enableBoundedPersonalization
      items hids
    have hrnd : ((dedupKeepOrder ((deterministicOrder
        cfg.enableBoundedPersonalization items).map
          Cand.bucketRank)).insertionSort (· ≤ ·)).Nodup :=
      (List.perm_insertionSort _ _).nodup_iff.mpr (nodup_dedupKeepOrder _)
    have hrsort : ((dedupKeepOrder ((deterministicOrder
        cfg.enableBoundedPersonalization items).map
          Cand.bucketRank)).insertionSort (· ≤ ·)).Sorted (· ≤ ·) :=
      List.sorted_insertionSort _ _
    have hcov : ∀ c ∈ deterministicOrder cfg.enableBoundedPersonalization
        items, c.bucketRank ∈ (dedupKeepOrder ((deterministicOrder
          cfg.enableBoundedPersonalization items).map
            Cand.bucketRank)).insertionSort (· ≤ ·) := by
      intro c hc
      exact (List.perm_insertionSort _ _).mem_iff.mpr
        ((mem_dedupKeepOrder _ _).mpr (List.mem_map.mpr ⟨c, hc, rfl⟩))
    have hgnodup : ∀ r : Nat, (((deterministicOrder
        cfg.enableBoundedPersonalization items).filter
          (fun c => c.bucketRank = r)).map Cand.taskId).Nodup := by
      intro r
      exact List.Nodup.sublist
        (List.Sublist.map Cand.taskId (List.filter_sublist _)) hdn
    have hgrank : ∀ r : Nat, ∀ c ∈ (deterministicOrder
        cfg.enableBoundedPersonalization items).filter
          (fun c => c.bucketRank = r), c.bucketRank = r := by
      intro r c hc
      simpa using (List.mem_filter.mp hc).2
    have hperm2 : ∀ (proj : Cand → String × Nat),
        (∀ c, proj (setApplied c) = proj c) →
        ((((dedupKeepOrder ((deterministicOrder
          cfg.enableBoundedPersonalization items).map
            Cand.bucketRank)).insertionSort (· ≤ ·)).map (fun r =>
              reorderBucketWithModel cfg.shadowConfidenceThreshold
                ((deterministicOrder cfg.enableBoundedPersonalization
                  items).filter (fun c => c.bucketRank = r)))).flatten.map
          proj).Perm ((deterministicOrder cfg.enableBoundedPersonalization
            items).map proj) := by
      intro proj hproj
      rw [List.map_flatten, List.map_map]
      have h1 := flatten_perm_of_forall₂ (forall₂_perm_map_map
        ((dedupKeepOrder ((deterministicOrder
          cfg.enableBoundedPersonalization items).map
            Cand.bucketRank)).insertionSort (· ≤ ·))
        _ (fun r => ((deterministicOrder cfg.enableBoundedPersonalization
          items).filter (fun c => c.bucketRank = r)).map proj)
        (fun r _ => reorderBucket_map_perm proj hproj
          cfg.shadowConfidenceThreshold _ (hgnodup r)))
      refine h1.trans ?_
      have h2 := (flatten_filter_classes_perm _ _ hrnd hcov).map proj
      rw [List.map_flatten, List.map_map] at h2
      exact h2
    refine ⟨hperm2 _ (fun c => rfl), ?_,
      deterministicOrder_rank_sorted _ _⟩
    have hpermrank : ((((dedupKeepOrder ((deterministicOrder
        cfg.enableBoundedPersonalization items).map
          Cand.bucketRank)).insertionSort (· ≤ ·)).map (fun r =>
            reorderBucketWithModel cfg.shadowConfidenceThreshold
              ((deterministicOrder cfg.enableBoundedPersonalization
                items).filter (fun c => c.bucketRank = r)))).flatten.map
        Cand.bucketRank).Perm ((deterministicOrder
          cfg.enableBoundedPersonalization items).map Cand.bucketRank) := by
      have := (hperm2 (fun c => (c.taskId, c.bucketRank))
        (fun c => rfl)).map Prod.snd
      rw [List.map_map, List.map_map] at this
      exact this
    have hsortedout : ((((dedupKeepOrder ((deterministicOrder
        cfg.enableBoundedPersonalization items).map
          Cand.bucketRank)).insertionSort (· ≤ ·)).map (fun r =>
            reorderBucketWithModel cfg.shadowConfidenceThreshold
              ((deterministicOrder cfg.enableBoundedPersonalization
                items).filter (fun c => c.bucketRank = r)))).flatten.map
        Cand.bucketRank).Sorted (· ≤ ·) := by
      rw [List.map_flatten, List.map_map]
      simp only [Function.comp_def]
      have hrepl : ((dedupKeepOrder ((deterministicOrder
          cfg.enableBoundedPersonalization items).map
            Cand.bucketRank)).insertionSort (· ≤ ·)).map (fun r =>
              (reorderBucketWithModel cfg.shadowConfidenceThreshold
                ((deterministicOrder cfg.enableBoundedPersonalization
                  items).filter (fun c => c.bucketRank = r))).map
                Cand.bucketRank) =
          ((dedupKeepOrder ((deterministicOrder
            cfg.enableBoundedPersonalization items).map
              Cand.bucketRank)).insertionSort (· ≤ ·)).map (fun r =>
                List.replicate (((deterministicOrder
                  cfg.enableBoundedPersonalization items).filter
                    (fun c => c.bucketRank = r)).length) r) := by
        apply List.map_congr_left
        intro r _
        rw [List.eq_replicate_iff]
        refine ⟨?_, ?_⟩
        · rw [List.length_map, reorderBucket_length]
        · intro b hbm
          rcases List.mem_map.mp hbm with ⟨c, hc, rfl⟩
          exact reorderBucket_rank _ _ _ (hgrank r) c hc
      rw [hrepl]
      exact sorted_flatten_replicate _ _ hrsort
    exact List.eq_of_perm_of_sorted hpermrank hsortedout
      (deterministicOrder_rank_sorted _ _)
  · simp only [sortWithOptionalPersonalization]
    rw [if_pos (by simp [hb])]
    exact ⟨List.Perm.refl _, rfl, deterministicOrder_rank_sorted _ _⟩

/-- C4 witness: the theorem at a concrete bounded configuration and the
three candidates of the reorder witness. -/
theorem personalization_preserves_bucket_assignments_witness :
    (([c5A, c5B, c5C].map Cand.taskId).Nodup) ∧
    (((sortWithOptionalPersonalization ⟨true, mkRat 1 2, true⟩
        [c5A, c5B, c5C]).map (fun c => (c.taskId, c.bucketRank))).Perm
      ((deterministicOrder true [c5A, c5B, c5C]).map
        (fun c => (c.taskId, c.bucketRank))) ∧
     (sortWithOptionalPersonalization ⟨true, mkRat 1 2, true⟩
        [c5A, c5B, c5C]).map Cand.bucketRank =
       (deterministicOrder true [c5A, c5B, c5C]).map Cand.bucketRank ∧
     ((deterministicOrder true [c5A, c5B, c5C]).map
       Cand.bucketRank).Sorted (· ≤ ·)) :=
  ⟨by decide,
    personalization_preserves_bucket_assignments ⟨true, mkRat 1 2, true⟩
      [c5A, c5B, c5C] _ _ (by decide) rfl rfl⟩

theorem dedupDuplicateCount_pos (tasks : List TaskRow) (d : String)
    (h : ∃ r ∈ tasks, r.dedupGroupId = some d ∧
      r.status.value ≠ "done" ∧ r.status.value ≠ "cancelled") :
    0 < dedupDuplicateCount tasks d := by
  obtain ⟨r, hr, h1, h2, h3⟩ := h
  have : r ∈ tasks.filter (fun r =>
      r.dedupGroupId = some d &&
      r.status.value ≠ "done" && r.status.value ≠ "cancelled") :=
    List.mem_filter.mpr ⟨hr, by simp [h1, h2, h3]⟩
  exact List.length_pos_of_mem this

theorem needs_review_mem_ingestLabels (hash : String → String)
    (tasks : List TaskRow) (req : TaskIngestRequest)
    (hdup : 0 < dedupDuplicateCount tasks
      (computeDedupGroupId hash req.title req.body req.project)) :
    TASK_LABEL_NEEDS_REVIEW ∈ (ingestLabelsRationale hash tasks req).1 := by
  unfold ingestLabelsRationale
  by_cases hc :
      (dedupKeepOrder req.labels).contains TASK_LABEL_NEEDS_REVIEW = true
  · have hm : TASK_LABEL_NEEDS_REVIEW ∈ dedupKeepOrder req.labels := by
      simpa using hc
    simp only [hdup, hc]
    simp [hm]
  · simp only [hdup, hc]
    simp [hc]

/-- C5: within one bucket, when fewer than two candidates are eligible
(model score present and confidence at least the threshold) the list is
returned untouched; otherwise the result has the same length, every
ineligible candidate keeps its exact absolute position, and the eligible
positions carry the same multiset of task ids re-sorted by (model score
descending, urgency descending, updated_at ascending). -/
theorem bounded_reorder_splices_within_bucket (θ : ℚ) (items out : List Cand)
    (hids : (items.map Cand.taskId).Nodup)
    (hout : reorderBucketWithModel θ items = out) :
    ((items.filter (isEligibleB θ)).length < 2 → out = items) ∧
    (2 ≤ (items.filter (isEligibleB θ)).length →
      out.length = items.length ∧
      (∀ n c, items.get? n = some c → isEligibleB θ c = false →
        out.get? n = some c) ∧
      ((out.filter (isEligibleB θ)).map Cand.taskId).Perm
        ((items.filter (isEligibleB θ)).map Cand.taskId) ∧
      (out.filter (isEligibleB θ)).Pairwise modLE) := by
  subst hout
  constructor
  · intro h
    simp only [reorderBucketWithModel]
    rw [if_pos h]
  · intro h2
    simp only [reorderBucketWithModel]
    rw [if_neg (Nat.not_lt.mpr h2)]
    by_cases hsame : (items.filter (isEligibleB θ)).map Cand.taskId =
        ((items.filter (isEligibleB θ)).insertionSort modLE).map Cand.taskId
    · rw [if_pos hsame]
      have heqs : items.filter (isEligibleB θ) =
          (items.filter (isEligibleB θ)).insertionSort modLE :=
        eq_of_map_taskId_eq items hids _ _
          (fun x hx => List.mem_of_mem_filter hx)
          (fun x hx => List.mem_of_mem_filter
            ((List.perm_insertionSort modLE _).mem_iff.mp hx))
          hsame
      refine ⟨rfl, fun n c hn _ => hn, List.Perm.refl _, ?_⟩
      rw [heqs]
      exact List.sorted_insertionSort modLE _
    · rw [if_neg hsame]
      have hqmem : ∀ q ∈ (items.filter (isEligibleB θ)).insertionSort modLE,
          q ∈ items.filter (isEligibleB θ) :=
        fun q hq => (List.perm_insertionSort modLE _).mem_iff.mp hq
      have hq : ∀ q ∈ (items.filter (isEligibleB θ)).insertionSort modLE,
          (((items.filter (isEligibleB θ)).map Cand.taskId).contains
            q.taskId) = true := by
        intro q hqq
        have : q.taskId ∈ (items.filter (isEligibleB θ)).map Cand.taskId :=
          List.mem_map.mpr ⟨q, hqmem q hqq, rfl⟩
        simpa using this
      have hlen : items.countP (fun c =>
          ((items.filter (isEligibleB θ)).map Cand.taskId).contains c.taskId) =
          ((items.filter (isEligibleB θ)).insertionSort modLE).length := by
        rw [List.countP_eq_length_filter,
          filter_contains_eq_filter_elig θ items hids,
          (List.perm_insertionSort modLE
            (items.filter (isEligibleB θ))).length_eq]
      have hfilter : (spliceEligible
            ((items.filter (isEligibleB θ)).map Cand.taskId)
            ((items.filter (isEligibleB θ)).insertionSort modLE)
            items).filter (isEligibleB θ) =
          ((items.filter (isEligibleB θ)).insertionSort modLE).map
            setApplied := by
        rw [← spliceEligible_filter_pos _ _ _ hq hlen]
        apply List.filter_congr
        intro x hx
        rcases spliceEligible_mem _ _ _ x hx with hmem | ⟨q, hqq, rfl⟩
        · cases hb : isEligibleB θ x with
          | true =>
              exact ((contains_eligIds_iff θ items hids x hmem).mpr hb).symm
          | false =>
              rcases Bool.eq_false_or_eq_true
                (((items.filter (isEligibleB θ)).map Cand.taskId).contains
                  x.taskId) with ht | hf
              · rw [(contains_eligIds_iff θ items hids x hmem).mp ht] at hb
                exact absurd hb (by simp)
              · exact hf.symm
        · have he : isEligibleB θ (setApplied q) = true :=
            (List.mem_filter.mp (hqmem q hqq)).2
          rw [he]
          exact (hq q hqq).symm
      refine ⟨spliceEligible_length _ _ _, ?_, ?_, ?_⟩
      · intro n c hn hc
        apply spliceEligible_get?_of_not_contains _ _ _ _ _ hn
        have hcm : c ∈ items := List.get?_mem hn
        rcases Bool.eq_false_or_eq_true
          (((items.filter (isEligibleB θ)).map Cand.taskId).contains c.taskId)
          with ht | hf
        · rw [(contains_eligIds_iff θ items hids c hcm).mp ht] at hc
          exact absurd hc (by simp)
        · exact hf
      · rw [hfilter, List.map_map]
        have hmm : (Cand.taskId ∘ setApplied) = Cand.taskId := rfl
        rw [hmm]
        exact (List.perm_insertionSort modLE _).map Cand.taskId
      · rw [hfilter]
        exact List.Pairwise.map setApplied (fun a b hab => hab)
          (List.sorted_insertionSort modLE (items.filter (isEligibleB θ)))

/-- C5 witness: three candidates in one bucket, the first and third
eligible with the third carrying the higher model score, the second
ineligible; the eligible pair swaps, the ineligible one keeps its
position. -/
theorem bounded_reorder_splices_within_bucket_witness :
    ((([c5A, c5B, c5C].map Cand.taskId).Nodup) ∧
      2 ≤ ([c5A, c5B, c5C].filter (isEligibleB (mkRat 1 2))).length) ∧
    ((([c5A, c5B, c5C].filter (isEligibleB (mkRat 1 2))).length < 2 →
        reorderBucketWithModel (mkRat 1 2) [c5A, c5B, c5C] = [c5A, c5B, c5C]) ∧
      (2 ≤ ([c5A, c5B, c5C].filter (isEligibleB (mkRat 1 2))).length →
        (reorderBucketWithModel (mkRat 1 2) [c5A, c5B, c5C]).length =
          [c5A, c5B, c5C].length ∧
        (∀ n c, [c5A, c5B, c5C].get? n = some c →
          isEligibleB (mkRat 1 2) c = false →
          (reorderBucketWithModel (mkRat 1 2) [c5A, c5B, c5C]).get? n = some c) ∧
        (((reorderBucketWithModel (mkRat 1 2) [c5A, c5B, c5C]).filter
            (isEligibleB (mkRat 1 2))).map Cand.taskId).Perm
          (([c5A, c5B, c5C].filter (isEligibleB (mkRat 1 2))).map Cand.taskId) ∧
        ((reorderBucketWithModel (mkRat 1 2) [c5A, c5B, c5C]).filter
          (isEligibleB (mkRat 1 2))).Pairwise modLE)) :=
  ⟨⟨by decide, by decide⟩,
    bounded_reorder_splices_within_bucket (mkRat 1 2) [c5A, c5B, c5C] _
      (by decide) rfl⟩

/-- C7 counterexample: when bounded personalisation is enabled, a
candidate whose shadow scoring raised (modelled as a missing ranker
result) has null model score, but its personalization_policy after the
queue pipeline is bounded_in_bucket, not the deterministic_only the
claim states. -/
theorem shadow_failure_policy_not_deterministic_only :
    (scoreTask ⟨true, mkRat 3 5, true⟩ c7Task 0 none).modelScore = none ∧
    ((sortWithOptionalPersonalization ⟨true, mkRat 3 5, true⟩
        [scoreTask ⟨true, mkRat 3 5, true⟩ c7Task 0 none]).map
      Cand.personalizationPolicy) = ["bounded_in_bucket"] ∧
    "bounded_in_bucket" ≠ "deterministic_only" := by
  decide

/-- C7 amended: a candidate whose shadow scoring raised has null model
score and model confidence (so it is never eligible for reordering) and
is built with policy deterministic_only; the query pipeline still
produces the deterministic ranking, and whenever bounded personalisation
is disabled (the default) every returned candidate reports policy
deterministic_only.  Under bounded mode the policy field instead
records bounded_in_bucket for every candidate, failed or scored. -/
theorem shadow_failure_falls_back_deterministic
    (cfg : AttentionConfig) (task : TaskRow) (now : ℚ) (items : List Cand) :
    (scoreTask cfg task now none).modelScore = none ∧
    (scoreTask cfg task now none).modelConfidence = none ∧
    (scoreTask cfg task now none).personalizationPolicy =
      "deterministic_only" ∧
    (cfg.enableBoundedPersonalization = false →
      sortWithOptionalPersonalization cfg items =
        (items.insertionSort detLE).map (setPolicy false) ∧
      ∀ c ∈ sortWithOptionalPersonalization cfg items,
        c.personalizationPolicy = "deterministic_only") := by
  refine ⟨?_, ?_, ?_, ?_⟩
  · cases hc : cfg.enableShadowRanker <;> simp [scoreTask, hc]
  · cases hc : cfg.enableShadowRanker <;> simp [scoreTask, hc]
  · cases hc : cfg.enableShadowRanker <;> simp [scoreTask, hc]
  · intro hb
    constructor
    · simp only [sortWithOptionalPersonalization]
      rw [if_pos (by simp [hb]), hb]
      rfl
    · intro c hc
      simp only [sortWithOptionalPersonalization] at hc
      rw [if_pos (by simp [hb]), hb] at hc
      rcases List.mem_map.mp hc with ⟨x, _, rfl⟩
      rfl

/-- C7 amended witness: the theorem at a concrete configuration with
bounded personalisation off and the failed candidate itself as the
queue. -/
theorem shadow_failure_falls_back_deterministic_witness :
    ((⟨true, mkRat 3 5, false⟩ : AttentionConfig).enableBoundedPersonalization
      = false) ∧
    ((scoreTask ⟨true, mkRat 3 5, false⟩ c7Task 0 none).modelScore = none ∧
     (scoreTask ⟨true, mkRat 3 5, false⟩ c7Task 0 none).modelConfidence =
       none ∧
     (scoreTask ⟨true, mkRat 3 5, false⟩ c7Task 0 none).personalizationPolicy
       = "deterministic_only" ∧
     (sortWithOptionalPersonalization ⟨true, mkRat 3 5, false⟩
        [scoreTask ⟨true, mkRat 3 5, false⟩ c7Task 0 none] =
        ([scoreTask ⟨true, mkRat 3 5, false⟩ c7Task 0 none].insertionSort
          detLE).map (setPolicy false) ∧
      ∀ c ∈ sortWithOptionalPersonalization ⟨true, mkRat 3 5, false⟩
        [scoreTask ⟨true, mkRat 3 5, false⟩ c7Task 0 none],
        c.personalizationPolicy = "deterministic_only")) :=
  ⟨rfl, by
    have h := shadow_failure_falls_back_deterministic
      ⟨true, mkRat 3 5, false⟩ c7Task 0
      [scoreTask ⟨true, mkRat 3 5, false⟩ c7Task 0 none]
    exact ⟨h.1, h.2.1, h.2.2.1, h.2.2.2 rfl⟩⟩

/-- C6 code-bug evidence: below the 0.4 safety floor run_experiment
does record apply_allowed = false with the blocking reason, in the
result and in the persisted run event - but apply_experiment can never
re-validate that gate: every streamed lab_experiment_run event
deserializes to a plain BaseEvent, the isinstance lookup matches no
stored run, and the route answers 404 not-found for every run id and
action - the 409 conflict branch is unreachable. -/
theorem experiment_apply_gate_unreachable
    (req : LabExperimentRunRequest) (baseline before : LabConfigPayload)
    (runId action : String) (res : LabExperimentRunResult)
    (ev : LabExperimentRunEvent) (log : List StoredLabLine)
    (hθ : req.candidateShadowConfidenceThreshold < mkRat 4 10)
    (hrun : runExperiment req baseline runId = (res, ev)) :
    res.applyAllowed = false ∧
    res.applyBlockReason =
      some "candidate_shadow_confidence_threshold below safety floor" ∧
    ev.applyAllowed = false ∧
    (∀ x ∈ streamLabRunEvents (log ++ [serializeRunEvent ev]),
      ∀ r, x ≠ .labExperimentRun r) ∧
    applyExperiment (log ++ [serializeRunEvent ev]) before runId action =
      .error .notFound := by
  have hA : decide (req.candidateShadowConfidenceThreshold ≥ mkRat 4 10) =
      false := decide_eq_false (not_le.mpr hθ)
  simp only [runExperiment] at hrun
  rw [hA] at hrun
  injection hrun with h1 h2
  subst h1
  subst h2
  have hbase : ∀ (e : LabExperimentRunEvent),
      ∀ x ∈ streamLabRunEvents (log ++ [serializeRunEvent e]),
      ∃ s, x = .base s := by
    intro e x hx
    unfold streamLabRunEvents at hx
    obtain ⟨l, hl, rfl⟩ := List.mem_map.mp hx
    have ht : l.eventType = "lab_experiment_run" :=
      of_decide_eq_true (List.mem_filter.mp hl).2
    unfold deserializeLabLine
    rw [if_neg (by rw [ht]; decide)]
    exact ⟨l.eventType, rfl⟩
  refine ⟨rfl, rfl, rfl, ?_, ?_⟩
  · intro x hx r hr
    obtain ⟨s, hs⟩ := hbase _ x hx
    rw [hs] at hr
    exact LabStreamedItem.noConfusion hr
  · simp only [applyExperiment]
    have hnone : ∀ (e : LabExperimentRunEvent),
        (streamLabRunEvents (log ++ [serializeRunEvent e])).find?
          (isRunWithId runId) = none := by
      intro e
      apply List.find?_eq_none.mpr
      intro x hx
      obtain ⟨s, hs⟩ := hbase e x hx
      rw [hs]
      simp [isRunWithId]
    rw [hnone]

/-- C6 code-bug witness: the theorem at the 0.2-threshold bounded
candidate of the spec scenario, applied over an empty prior log with
the run event just persisted. -/
theorem experiment_apply_gate_unreachable_witness :
    ((mkRat 2 10) < mkRat 4 10) ∧
    ((runExperiment
        ⟨"qa", "unsafe candidate", "attention_ranking", .bounded, mkRat 2 10⟩
        ⟨"deterministic", mkRat 6 10⟩ "run1").1.applyAllowed = false ∧
      (runExperiment
        ⟨"qa", "unsafe candidate", "attention_ranking", .bounded, mkRat 2 10⟩
        ⟨"deterministic", mkRat 6 10⟩ "run1").1.applyBlockReason =
        some "candidate_shadow_confidence_threshold below safety floor" ∧
      (runExperiment
        ⟨"qa", "unsafe candidate", "attention_ranking", .bounded, mkRat 2 10⟩
        ⟨"deterministic", mkRat 6 10⟩ "run1").2.applyAllowed = false ∧
      (∀ x ∈ streamLabRunEvents ([] ++ [serializeRunEvent (runExperiment
          ⟨"qa", "unsafe candidate", "attention_ranking", .bounded,
            mkRat 2 10⟩
          ⟨"deterministic", mkRat 6 10⟩ "run1").2]),
        ∀ r, x ≠ .labExperimentRun r) ∧
      applyExperiment
        ([] ++ [serializeRunEvent (runExperiment
          ⟨"qa", "unsafe candidate", "attention_ranking", .bounded,
            mkRat 2 10⟩
          ⟨"deterministic", mkRat 6 10⟩ "run1").2])
        ⟨"deterministic", mkRat 6 10⟩ "run1" "apply" =
        .error .notFound) :=
  ⟨by decide,
    experiment_apply_gate_unreachable
      ⟨"qa", "unsafe candidate", "attention_ranking", .bounded, mkRat 2 10⟩
      ⟨"deterministic", mkRat 6 10⟩ ⟨"deterministic", mkRat 6 10⟩
      "run1" "apply" _ _ [] (by decide) rfl⟩

/-- C10 counterexample: a store whose single daily file holds a line
with timestamp 2 before a line with timestamp 1; stream_events returns
them in that stored order, which is not non-decreasing. -/
theorem stream_events_not_always_sorted :
    (streamEvents [(0, [⟨"e2", "a", 2⟩, ⟨"e1", "a", 1⟩])] none none).map
      SEvent.timestamp = [2, 1] ∧
    ¬ ((streamEvents [(0, [⟨"e2", "a", 2⟩, ⟨"e1", "a", 1⟩])] none
      none).map SEvent.timestamp).Sorted (· ≤ ·) := by
  constructor
  · decide
  · intro h
    have he : (streamEvents [(0, [⟨"e2", "a", 2⟩, ⟨"e1", "a", 1⟩])]
        none none).map SEvent.timestamp = [2, 1] := by decide
    rw [he] at h
    have h2 : ((2 : ℚ) ≤ 1) := List.rel_of_sorted_cons h 1 (by simp)
    norm_num at h2

/-- C10 amended: stream_events concatenates the daily files in filename
order and filters; whenever the stored log read in that order is
non-decreasing in timestamp (as it is when events are appended in
timestamp order), the returned events are non-decreasing in timestamp
for every since and event_types filter combination. -/
theorem stream_events_sorted_of_log_sorted
    (files : List (Nat × List SEvent)) (since : Option ℚ)
    (types : Option (List String))
    (hs : ((((files.insertionSort (fun a b => a.1 ≤ b.1)).map
        Prod.snd).flatten).map SEvent.timestamp).Sorted (· ≤ ·)) :
    ((streamEvents files since types).map SEvent.timestamp).Sorted
      (· ≤ ·) := by
  unfold streamEvents
  exact List.Pairwise.sublist
    (List.Sublist.map SEvent.timestamp (List.filter_sublist _)) hs

/-- C10 amended witness: a two-file store in timestamp order with both
filters active. -/
theorem stream_events_sorted_of_log_sorted_witness :
    ((((([((0 : Nat), [(⟨"e1", "a", 1⟩ : SEvent)]),
        ((1 : Nat), [(⟨"e2", "b", 2⟩ : SEvent)])]).insertionSort
          (fun a b => a.1 ≤ b.1)).map Prod.snd).flatten).map
        SEvent.timestamp).Sorted (· ≤ ·) ∧
    ((streamEvents [((0 : Nat), [(⟨"e1", "a", 1⟩ : SEvent)]),
        ((1 : Nat), [(⟨"e2", "b", 2⟩ : SEvent)])] (some 0)
      (some ["a", "b"])).map SEvent.timestamp).Sorted (· ≤ ·) :=
  ⟨by decide,
    stream_events_sorted_of_log_sorted
      [((0 : Nat), [(⟨"e1", "a", 1⟩ : SEvent)]),
        ((1 : Nat), [(⟨"e2", "b", 2⟩ : SEvent)])] (some 0) (some ["a", "b"])
      (by decide)⟩

/-- C3: for every (source, source_ref) pair not yet present, the first
ingest creates the task and returns created = true with the fresh task
id; a second ingest of the same pair returns created = false with the
same task id, leaves the tasks projection untouched, and its only effect
is appending one ingest_existing decision event. -/
theorem ingest_idempotent_second_call_noop
    (hash : String → String) (st : SysState) (req : TaskIngestRequest)
    (now₁ now₂ : ℚ) (fid₁ fid₂ : String)
    (res₁ res₂ : TaskIngestResult) (acts₁ acts₂ : List Action) (st₁ : SysState)
    (hnew : findBySourceRef st.tasks req.source req.sourceRef = none)
    (hfresh : ∀ r ∈ st.tasks, r.taskId ≠ fid₁)
    (hp₁ : ingestTask hash st.tasks req now₁ fid₁ = (res₁, acts₁))
    (hst₁ : applyActions st acts₁ = st₁)
    (hp₂ : ingestTask hash st₁.tasks req now₂ fid₂ = (res₂, acts₂)) :
    res₁.created = true ∧ res₁.taskId = fid₁ ∧
    res₂.created = false ∧ res₂.taskId = fid₁ ∧
    (applyActions st₁ acts₂).tasks = st₁.tasks ∧
    ∃ ev, acts₂ = [Action.appendEvent ev] ∧ ev.action = "ingest_existing" := by
  rw [ingestTask_not_found hash st.tasks req now₁ fid₁ hnew] at hp₁
  injection hp₁ with h₁ h₂
  subst h₁
  subst h₂
  simp only [applyActions, List.foldl, applyAction] at hst₁
  subst hst₁
  have hup : upsertBy TaskRow.taskId (ingestNewRow hash st.tasks req now₁ fid₁)
      st.tasks = st.tasks ++ [ingestNewRow hash st.tasks req now₁ fid₁] :=
    upsertBy_eq_append _ _ _ (fun r hr => hfresh r hr)
  have hfind2 : findBySourceRef
      (upsertBy TaskRow.taskId (ingestNewRow hash st.tasks req now₁ fid₁) st.tasks)
      req.source req.sourceRef = some (ingestNewRow hash st.tasks req now₁ fid₁) := by
    rw [hup]
    exact findBySourceRef_append_new _ _ _ _ hnew rfl rfl
  rw [ingestTask_found hash _ req now₂ fid₂ _ hfind2] at hp₂
  injection hp₂ with h₃ h₄
  subst h₃
  subst h₄
  refine ⟨rfl, rfl, rfl, rfl, rfl, ⟨_, rfl, rfl⟩⟩

/-- C3 witness: the theorem applied to the empty store and one concrete
request. -/
theorem ingest_idempotent_second_call_noop_witness :
    (findBySourceRef ([] : List TaskRow) "api" "r1" = none) ∧
    (∀ r ∈ ([] : List TaskRow), r.taskId ≠ "t1") ∧
    ((ingestTask (fun s => s) []
        ⟨"T", none, "api", "r1", none, none, none, [], none⟩ 0 "t1").1.created = true ∧
      (ingestTask (fun s => s) []
        ⟨"T", none, "api", "r1", none, none, none, [], none⟩ 0 "t1").1.taskId = "t1" ∧
      (ingestTask (fun s => s)
        (applyActions ⟨[], []⟩
          (ingestTask (fun s => s) []
            ⟨"T", none, "api", "r1", none, none, none, [], none⟩ 0 "t1").2).tasks
        ⟨"T", none, "api", "r1", none, none, none, [], none⟩ 1 "t2").1.created = false ∧
      (ingestTask (fun s => s)
        (applyActions ⟨[], []⟩
          (ingestTask (fun s => s) []
            ⟨"T", none, "api", "r1", none, none, none, [], none⟩ 0 "t1").2).tasks
        ⟨"T", none, "api", "r1", none, none, none, [], none⟩ 1 "t2").1.taskId = "t1" ∧
      (applyActions
        (applyActions ⟨[], []⟩
          (ingestTask (fun s => s) []
            ⟨"T", none, "api", "r1", none, none, none, [], none⟩ 0 "t1").2)
        (ingestTask (fun s => s)
          (applyActions ⟨[], []⟩
            (ingestTask (fun s => s) []
              ⟨"T", none, "api", "r1", none, none, none, [], none⟩ 0 "t1").2).tasks
          ⟨"T", none, "api", "r1", none, none, none, [], none⟩ 1 "t2").2).tasks =
        (applyActions ⟨[], []⟩
          (ingestTask (fun s => s) []
            ⟨"T", none, "api", "r1", none, none, none, [], none⟩ 0 "t1").2).tasks ∧
      ∃ ev, (ingestTask (fun s => s)
          (applyActions ⟨[], []⟩
            (ingestTask (fun s => s) []
              ⟨"T", none, "api", "r1", none, none, none, [], none⟩ 0 "t1").2).tasks
          ⟨"T", none, "api", "r1", none, none, none, [], none⟩ 1 "t2").2 =
        [Action.appendEvent ev] ∧ ev.action = "ingest_existing") :=
  ⟨rfl, by decide,
    ingest_idempotent_second_call_noop (fun s => s) ⟨[], []⟩
      ⟨"T", none, "api", "r1", none, none, none, [], none⟩ 0 1 "t1" "t2"
      _ _ _ _ _ rfl (by decide) rfl rfl rfl⟩

/-- C9: when the computed dedup group of a new ingest is shared with at
least one existing non-terminal task, the new task is still created
(created = true), carries the needs_review label and a non-empty
explanation list, and the store becomes the old rows, all unchanged
(labels included), plus the one new row. -/
theorem ingest_duplicate_flags_needs_review
    (hash : String → String) (st : SysState) (req : TaskIngestRequest)
    (now : ℚ) (fid : String) (res : TaskIngestResult) (acts : List Action)
    (hnew : findBySourceRef st.tasks req.source req.sourceRef = none)
    (hfresh : ∀ r ∈ st.tasks, r.taskId ≠ fid)
    (hdup : ∃ r ∈ st.tasks,
      r.dedupGroupId = some (computeDedupGroupId hash req.title req.body req.project) ∧
      r.status.value ≠ "done" ∧ r.status.value ≠ "cancelled")
    (hp : ingestTask hash st.tasks req now fid = (res, acts)) :
    res.created = true ∧
    ∃ task, (applyActions st acts).tasks = st.tasks ++ [task] ∧
      task.taskId = fid ∧
      TASK_LABEL_NEEDS_REVIEW ∈ task.labels ∧
      task.explanations ≠ [] := by
  rw [ingestTask_not_found hash st.tasks req now fid hnew] at hp
  injection hp with h₁ h₂
  subst h₁
  subst h₂
  refine ⟨rfl, ingestNewRow hash st.tasks req now fid, ?_, rfl, ?_, ?_⟩
  · simp only [applyActions, List.foldl, applyAction]
    exact upsertBy_eq_append _ _ _ (fun r hr => hfresh r hr)
  · exact needs_review_mem_ingestLabels hash st.tasks req
      (dedupDuplicateCount_pos _ _ hdup)
  · simp [ingestNewRow]

/-- C9 witness: ingesting a second task with the same normalised
title, body and project (identity hash, key t||) under a fresh
source_ref flags the new task and leaves the stored row alone. -/
theorem ingest_duplicate_flags_needs_review_witness :
    (findBySourceRef [c9Row] "api" "r1" = none) ∧
    (∀ r ∈ [c9Row], r.taskId ≠ "t1") ∧
    (∃ r ∈ [c9Row],
      r.dedupGroupId = some (computeDedupGroupId (fun s => s) "T" none none) ∧
      r.status.value ≠ "done" ∧ r.status.value ≠ "cancelled") ∧
    ((ingestTask (fun s => s) [c9Row]
        ⟨"T", none, "api", "r1", none, none, none, [], none⟩ 0 "t1").1.created = true ∧
      ∃ task,
        (applyActions ⟨[c9Row], []⟩
          (ingestTask (fun s => s) [c9Row]
            ⟨"T", none, "api", "r1", none, none, none, [], none⟩ 0 "t1").2).tasks =
          [c9Row] ++ [task] ∧
        task.taskId = "t1" ∧
        TASK_LABEL_NEEDS_REVIEW ∈ task.labels ∧
        task.explanations ≠ []) :=
  ⟨by decide, by decide, by decide,
    ingest_duplicate_flags_needs_review (fun s => s) ⟨[c9Row], []⟩
      ⟨"T", none, "api", "r1", none, none, none, [], none⟩ 0 "t1" _ _
      (by decide) (by decide) (by decide) rfl⟩

/-- C1: the cycle detector of the service flags the proposed link from a
to b as cycle-closing (b already depends on a), yet link_task never
consults it: the call succeeds, and after its effects are applied both
stored rows reference each other, so the committed dependency graph
contains the cycle the claim says is rejected with no state change. -/
theorem link_task_commits_cycle_without_detection :
    wouldCreateCycle [c1RowA, c1RowB] "a" "b" = true ∧
    (linkTask [c1RowA, c1RowB] "a" ["b"] none 1).1.map TaskRow.blockedBy =
      some ["b"] ∧
    (applyActions ⟨[c1RowA, c1RowB], []⟩
        (linkTask [c1RowA, c1RowB] "a" ["b"] none 1).2).tasks.map
      (fun r => (r.taskId, r.blockedBy)) = [("a", ["b"]), ("b", ["a"])] := by
  decide

/-- C8 counterexample: for a concrete ingest, the emitted effect trace is
upsert, commit, append; the decision event append does not precede the
projection upsert, refuting the claimed order. -/
theorem ingest_appends_event_after_upsert :
    ((ingestTask (fun s => s) []
        ⟨"T", none, "api", "r1", none, none, none, [], none⟩ 0 "t1").2.map
      Action.kind) = [.upsert, .commit, .append] ∧
    ¬ (((ingestTask (fun s => s) []
          ⟨"T", none, "api", "r1", none, none, none, [], none⟩ 0 "t1").2.map
        Action.kind).indexOf ActionKind.append <
      ((ingestTask (fun s => s) []
          ⟨"T", none, "api", "r1", none, none, none, [], none⟩ 0 "t1").2.map
        Action.kind).indexOf ActionKind.upsert) := by
  decide

/-- C8 amended: every mutating Task Service operation (ingest of a new
pair, patch, complete, snooze, link of an existing task) emits exactly
the trace upsert, commit, append — the projection upsert comes first and
the decision event carrying the updated snapshot is appended last. -/
theorem mutation_upsert_precedes_event_append
    (hash : String → String) (tasks : List TaskRow) (req : TaskIngestRequest)
    (tid : String) (p : TaskPatchRequest) (untilTs : ℚ)
    (rationale : Option String) (deps : List String) (now : ℚ) (fid : String) :
    (findBySourceRef tasks req.source req.sourceRef = none →
      (ingestTask hash tasks req now fid).2.map Action.kind =
        [.upsert, .commit, .append]) ∧
    ((∃ t, findById tasks tid = some t) →
      (patchTask tasks tid p now).2.map Action.kind =
        [.upsert, .commit, .append]) ∧
    ((∃ t, findById tasks tid = some t) →
      (completeTask tasks tid rationale now).2.map Action.kind =
        [.upsert, .commit, .append]) ∧
    ((∃ t, findById tasks tid = some t) →
      (snoozeTask tasks tid untilTs rationale now).2.map Action.kind =
        [.upsert, .commit, .append]) ∧
    ((∃ t, findById tasks tid = some t) →
      (linkTask tasks tid deps rationale now).2.map Action.kind =
        [.upsert, .commit, .append]) := by
  refine ⟨fun hnew => ?_, fun ⟨t, ht⟩ => ?_, fun ⟨t, ht⟩ => ?_,
    fun ⟨t, ht⟩ => ?_, fun ⟨t, ht⟩ => ?_⟩
  · rw [ingestTask_not_found hash tasks req now fid hnew]
    rfl
  · unfold patchTask
    rw [ht]
    rfl
  · unfold completeTask
    rw [ht]
    rfl
  · unfold snoozeTask
    rw [ht]
    rfl
  · unfold linkTask
    rw [ht]
    rfl

/-- C8 amended witness: the five traces at concrete inputs. -/
theorem mutation_upsert_precedes_event_append_witness :
    (findBySourceRef [c1RowA] "api" "r1" = none) ∧
    (∃ t, findById [c1RowA] "a" = some t) ∧
    ((ingestTask (fun s => s) [c1RowA]
        ⟨"T", none, "api", "r1", none, none, none, [], none⟩ 0 "t1").2.map
      Action.kind = [.upsert, .commit, .append]) ∧
    ((patchTask [c1RowA] "a"
        ⟨none, none, none, none, none, none, none, none⟩ 0).2.map
      Action.kind = [.upsert, .commit, .append]) ∧
    ((completeTask [c1RowA] "a" none 0).2.map Action.kind =
      [.upsert, .commit, .append]) ∧
    ((snoozeTask [c1RowA] "a" 5 none 0).2.map Action.kind =
      [.upsert, .commit, .append]) ∧
    ((linkTask [c1RowA] "a" [] none 0).2.map Action.kind =
      [.upsert, .commit, .append]) := by
  have h := mutation_upsert_precedes_event_append (fun s => s) [c1RowA]
    ⟨"T", none, "api", "r1", none, none, none, [], none⟩ "a"
    ⟨none, none, none, none, none, none, none, none⟩ 5 none [] 0 "t1"
  exact ⟨by decide, ⟨c1RowA, by decide⟩,
    h.1 (by decide), h.2.1 ⟨c1RowA, by decide⟩, h.2.2.1 ⟨c1RowA, by decide⟩,
    h.2.2.2.1 ⟨c1RowA, by decide⟩, h.2.2.2.2 ⟨c1RowA, by decide⟩⟩

end Helio
